import Mathlib

/-!
Verification development for the `mailparse` MIME parsing library
(`src/lib.rs`).  The library is embedded shallowly:

* Byte buffers (`&[u8]`) and decoded strings are both modelled as
  `List Nat`.  The library decodes header bytes with ISO-8859-1, which maps
  every byte `b` to the code point `b`, so the decode itself is the identity
  on these lists.  Rust `str` operations index by UTF-8 bytes while
  `chars().nth` counts characters; the model identifies the two indexings,
  which agrees with the code on all-ASCII strings (every concrete input used
  in a theorem below is ASCII).
* Fallible Rust functions returning `Result` become `Except MailParseError`.
  Reachable panics (slice-bound violations and `assert!` failures) and
  fuel exhaustion of the loop/recursion encodings are made explicit by the
  `Res` wrapper; the fuel supplied always dominates the loop bounds of the
  source, so `.fuelOut` is never the value of a run that the Rust code
  completes.
* The external capabilities used by the crate (base64 codec,
  quoted-printable codec, WHATWG charset registry) are not part of this
  repository; they are modelled from the spec where marked.
-/

/-- Outcome of running a piece of Rust code: a normal return, a panic
(slice-index violation or failed `assert!`), or exhaustion of the fuel used
to encode a source-level loop. -/
inductive Res (α : Type) where
  | panics : Res α
  | fuelOut : Res α
  | ret : α → Res α
deriving Repr, DecidableEq

/-- Error enum `MailParseError` of `src/lib.rs`.  The payloads of the two
codec wrappers are irrelevant to the claims and are dropped. -/
inductive MailParseError where
  | QuotedPrintableDecodeError : MailParseError
  | Base64DecodeError : MailParseError
  | EncodingError : MailParseError
  | Generic : String → Nat → MailParseError
deriving Repr, DecidableEq

/-- Convert a Lean string literal to the `List Nat` of its code points. -/
def str (s : String) : List Nat := s.toList.map Char.toNat

/-- `char::is_whitespace` restricted to the Latin-1 range (the only code
points produced by the ISO-8859-1 transport decode): the Unicode
`White_Space` code points below `0x100`. -/
def isWhitespace (c : Nat) : Bool :=
  c = 32 || c = 9 || c = 10 || c = 11 || c = 12 || c = 13 || c = 133 || c = 160

/-- Rust `str::trim_left` (now `trim_start`). -/
def trimLeft (l : List Nat) : List Nat := l.dropWhile isWhitespace

/-- Rust `str::trim`: whitespace stripped from both ends. -/
def trimStr (l : List Nat) : List Nat :=
  ((trimLeft l).reverse.dropWhile isWhitespace).reverse

/-- `char::to_lowercase`, exact on the Basic Latin and Latin-1 ranges
(`A`-`Z`, `À`-`Þ` except `×`, and `µ` → `μ`); identity elsewhere.  The
multi-character expansions of a few higher code points are not exercised by
any input considered here. -/
def toLowerChar (c : Nat) : Nat :=
  if 65 ≤ c ∧ c ≤ 90 then c + 32
  else if (192 ≤ c ∧ c ≤ 222) ∧ c ≠ 215 then c + 32
  else if c = 181 then 956
  else c

/-- Rust `str::to_lowercase` under the model of `toLowerChar`. -/
def strToLower (l : List Nat) : List Nat := l.map toLowerChar

/-- UTF-8 encoding of one code point (`str::as_bytes` on a one-char string). -/
def utf8Char (c : Nat) : List Nat :=
  if c ≤ 0x7F then [c]
  else if c ≤ 0x7FF then [0xC0 + c / 64, 0x80 + c % 64]
  else if c ≤ 0xFFFF then [0xE0 + c / 4096, 0x80 + (c / 64) % 64, 0x80 + c % 64]
  else [0xF0 + c / 262144, 0x80 + (c / 4096) % 64, 0x80 + (c / 64) % 64, 0x80 + c % 64]

/-- `str::as_bytes`: UTF-8 encoding of a character sequence. -/
def utf8Encode (l : List Nat) : List Nat := l.flatMap utf8Char

/-- Rust slice `l[a..b]` (the flows below only evaluate it with
`a ≤ b ≤ l.length`, where it agrees with the source; the out-of-range
panic of `parse_content_type` is modelled explicitly at its call site). -/
def listSlice (l : List Nat) (a b : Nat) : List Nat := (l.drop a).take (b - a)

/-- Index of the first position of `l` at which `key` is a prefix
(`str::find` restricted to the suffix starting there). -/
def idxOfSub (l key : List Nat) : Option Nat :=
  if key.isPrefixOf l then some 0
  else
    match l with
    | [] => none
    | _ :: t => (idxOfSub t key).map (fun v => v + 1)

/-- `find_from` of `src/lib.rs`: `line[ix_start..].find(key).map(|v| ix_start + v)`. -/
def findFrom (line : List Nat) (ixStart : Nat) (key : List Nat) : Option Nat :=
  (idxOfSub (line.drop ixStart) key).map (fun v => ixStart + v)

/-- `Nat::checked_sub`. -/
def checkedSub (a b : Nat) : Option Nat := if a < b then none else some (a - b)

/-- `is_boundary` of `src/lib.rs`. -/
def isBoundary (line : List Nat) (ix : Option Nat) : Bool :=
  match ix with
  | none => true
  | some v => v ≥ line.length || isWhitespace (line.getD v 0)

/-- Scan loop of `find_from_u8` over `i in ix_start..ix_end`, encoded
structurally on the remaining iteration count `n = ixEnd - i`: first `i`
with `i < ixEnd` at which `key` matches `line`. -/
def findLoop (line key : List Nat) (i n : Nat) : Option Nat :=
  match n with
  | 0 => none
  | n + 1 =>
    if key.isPrefixOf (line.drop i) then some i else findLoop line key (i + 1) n

/-- `find_from_u8` of `src/lib.rs`.  Panics: the two `assert!`s, and the
`line.len() - key.len()` underflow / out-of-range index walk when the key is
longer than the buffer. -/
def findFromU8 (line : List Nat) (ixStart : Nat) (key : List Nat) : Res (Option Nat) :=
  if key.length = 0 then .panics
  else if ¬ ixStart < line.length then .panics
  else if line.length < key.length then .panics
  else if ixStart ≤ line.length - key.length then
    .ret (findLoop line key ixStart (line.length - key.length - ixStart))
  else .ret none

/-- Header of `src/lib.rs`: a key span and a value span (borrowed byte
slices, here copied out of the buffer). -/
structure MailHeader where
  key : List Nat
  value : List Nat
deriving Repr, DecidableEq

/-- `HeaderParseState` of `src/lib.rs`.  `Initial` does not appear: the
`Initial` state is entered exactly once, for the first byte, and is resolved
in `parseHeader` itself (see `hInitial`). -/
inductive HState where
  | Key | PreValue | Value | ValueNewline
deriving Repr, DecidableEq

/-- Accumulators of `parse_header`'s loop. -/
structure HAcc where
  ixKeyEnd : Option Nat
  ixValueStart : Nat
  ixValueEnd : Nat
deriving Repr, DecidableEq

/-- One-step transition of the `parse_header` state machine on the current
byte, with the `continue`-without-consuming transitions of the source
(`PreValue → Value` and `ValueNewline → Value`, which re-process the current
byte) resolved inline.  Results: a fatal error, loop exit returning
`(acc, ix)` (the `break` out of `ValueNewline`), or the state and
accumulators with which the next byte is consumed. -/
def hStep (st : HState) (a : HAcc) (ix c : Nat) :
    (Except MailParseError (HAcc × Nat)) ⊕ (HState × HAcc) :=
  match st with
  | .Key =>
    if c = 58 then .inr (.PreValue, { a with ixKeyEnd := some ix })
    else if c = 10 then .inl (.error (.Generic ("Unexpected newline in header key") ix))
    else .inr (.Key, a)
  | .PreValue =>
    if c ≠ 32 then
      -- falls through to `Value` processing of the same byte
      let a2 := { a with ixValueStart := ix, ixValueEnd := ix }
      if c = 10 then .inr (.ValueNewline, a2)
      else .inr (.Value, { a2 with ixValueEnd := ix + 1 })
    else .inr (.PreValue, a)
  | .Value =>
    if c = 10 then .inr (.ValueNewline, a)
    else .inr (.Value, { a with ixValueEnd := ix + 1 })
  | .ValueNewline =>
    if c = 32 ∨ c = 9 then
      -- falls through to `Value` processing of the same byte
      if c = 10 then .inr (.ValueNewline, a)
      else .inr (.Value, { a with ixValueEnd := ix + 1 })
    else .inl (.ok (a, ix))

/-- The loop of `parse_header`: process byte `c` at index `ix` in state
`st`, then advance through the iterator `it`; on iterator exhaustion the
loop `break`s at index `ix + 1`. -/
def goH (st : HState) (a : HAcc) (ix c : Nat) (it : List Nat) :
    Except MailParseError (HAcc × Nat) :=
  match hStep st a ix c with
  | .inl r => r
  | .inr (st2, a2) =>
    match it with
    | [] => .ok (a2, ix + 1)
    | c2 :: it2 => goH st2 a2 (ix + 1) c2 it2

/-- `parse_header` of `src/lib.rs`.  The `Initial` state's single action
(rejecting a leading space, then `continue` into `Key` on the same byte) is
performed here on the first byte. -/
def parseHeader (rawData : List Nat) : Except MailParseError (MailHeader × Nat) :=
  match rawData with
  | [] => .error (.Generic ("Empty string provided") 0)
  | c :: it =>
    if c = 32 then
      .error (.Generic ("Header cannot start with a space; it is likely an overhanging line from a previous header") 0)
    else
      match goH .Key ⟨none, 0, 0⟩ 0 c it with
      | .error e => .error e
      | .ok (a, ix) =>
        match a.ixKeyEnd with
        | some v =>
          .ok ({ key := rawData.take v,
                 value := listSlice rawData a.ixValueStart a.ixValueEnd }, ix)
        | none =>
          .error (.Generic ("Unable to determine end of the header key component") ix)

example : parseHeader (str ("Key: Value")) =
    .ok ({ key := str ("Key"), value := str ("Value") }, 10) := by rfl

example : parseHeader (str ("Key :  Value ")) =
    .ok ({ key := str ("Key "), value := str ("Value ") }, 13) := by rfl

example : parseHeader (str ("Key:")) =
    .ok ({ key := str ("Key"), value := [] }, 4) := by rfl

example : parseHeader (str (":\n")) =
    .ok ({ key := [], value := [] }, 2) := by rfl

example : parseHeader (str ("Key:Multi-line\n value")) =
    .ok ({ key := str ("Key"), value := str ("Multi-line\n value") }, 21) := by rfl

example : parseHeader (str ("Key:  Multi\n  line\n value\n")) =
    .ok ({ key := str ("Key"), value := str ("Multi\n  line\n value") }, 26) := by rfl

example : parseHeader (str ("Key: One\nKey2: Two")) =
    .ok ({ key := str ("Key"), value := str ("One") }, 9) := by rfl

example : parseHeader (str ("Key: One\n\tOverhang")) =
    .ok ({ key := str ("Key"), value := str ("One\n\tOverhang") }, 18) := by rfl

example : parseHeader (str (" Leading: Space")) =
    .error (.Generic ("Header cannot start with a space; it is likely an overhanging line from a previous header") 0) := by rfl

example : parseHeader (str ("Key\nBroken: Value")) =
    .error (.Generic ("Unexpected newline in header key") 3) := by rfl

example : parseHeader (str ("Just a string")) =
    .error (.Generic ("Unable to determine end of the header key component") 13) := by rfl

/-- `MailHeader::get_key`: ISO-8859-1 strict decode (total, the identity on
code points) followed by `trim`. -/
def getKey (key : List Nat) : Except MailParseError (List Nat) :=
  .ok (trimStr key)

/-- Modelled from the spec: the external Base64 codec (`base64::u8de`)
decodes standard Base64 and fails on malformed input.  Value of one
alphabet character. -/
def b64Val (c : Nat) : Option Nat :=
  if 65 ≤ c ∧ c ≤ 90 then some (c - 65)
  else if 97 ≤ c ∧ c ≤ 122 then some (c - 71)
  else if 48 ≤ c ∧ c ≤ 57 then some (c + 4)
  else if c = 43 then some 62
  else if c = 47 then some 63
  else none

/-- Modelled from the spec: Base64 main loop over the unpadded alphabet
characters. -/
def base64Core : List Nat → Option (List Nat)
  | [] => some []
  | [_] => none
  | [a, b] =>
    match b64Val a, b64Val b with
    | some va, some vb => some [va * 4 + vb / 16]
    | _, _ => none
  | [a, b, c] =>
    match b64Val a, b64Val b, b64Val c with
    | some va, some vb, some vc => some [va * 4 + vb / 16, vb % 16 * 16 + vc / 4]
    | _, _, _ => none
  | a :: b :: c :: d :: rest =>
    match b64Val a, b64Val b, b64Val c, b64Val d with
    | some va, some vb, some vc, some vd =>
      (base64Core rest).map
        (fun t => (va * 4 + vb / 16) :: (vb % 16 * 16 + vc / 4) :: (vc % 4 * 64 + vd) :: t)
    | _, _, _, _ => none

/-- Modelled from the spec: the external Base64 decoder, stripping trailing
padding first.  No theorem depends on its exact behaviour (the `B` branch of
`decode_word` is not exercised). -/
def base64Decode (input : List Nat) : Except MailParseError (List Nat) :=
  match base64Core ((input.reverse.dropWhile (fun c => c = 61)).reverse) with
  | some r => .ok r
  | none => .error .Base64DecodeError

/-- Value of one hexadecimal digit. -/
def hexVal (c : Nat) : Option Nat :=
  if 48 ≤ c ∧ c ≤ 57 then some (c - 48)
  else if 65 ≤ c ∧ c ≤ 70 then some (c - 55)
  else if 97 ≤ c ∧ c ≤ 102 then some (c - 87)
  else none

/-- Modelled from the spec: the external Quoted-Printable codec in tolerant
("robust") mode: `=XY` with hex digits decodes to one byte, soft line
breaks are removed, and malformed escapes pass through literally instead of
failing (the robust mode never errors, so the decode is total). -/
def qpDecodeRobust : List Nat → List Nat
  | [] => []
  | 61 :: 13 :: 10 :: rest2 => qpDecodeRobust rest2
  | 61 :: 10 :: rest2 => qpDecodeRobust rest2
  | 61 :: a :: b :: rest2 =>
    (match hexVal a, hexVal b with
     | some va, some vb => (va * 16 + vb) :: qpDecodeRobust rest2
     | _, _ => 61 :: qpDecodeRobust (a :: b :: rest2))
  | 61 :: rest => 61 :: qpDecodeRobust rest
  | c :: rest => c :: qpDecodeRobust rest

/-- Modelled from the spec: lossy UTF-8 decoding with replacement characters
for invalid sequences (not exercised by any theorem). -/
def utf8LossyDecode : List Nat → List Nat
  | [] => []
  | b :: rest =>
    if b ≤ 0x7F then b :: utf8LossyDecode rest
    else if 0xC2 ≤ b ∧ b ≤ 0xDF then
      match rest with
      | b2 :: rest2 =>
        if 0x80 ≤ b2 ∧ b2 ≤ 0xBF then ((b - 0xC0) * 64 + (b2 - 0x80)) :: utf8LossyDecode rest2
        else 0xFFFD :: utf8LossyDecode (b2 :: rest2)
      | [] => [0xFFFD]
    else if 0xE0 ≤ b ∧ b ≤ 0xEF then
      match rest with
      | b2 :: b3 :: rest2 =>
        if (0x80 ≤ b2 ∧ b2 ≤ 0xBF) ∧ (0x80 ≤ b3 ∧ b3 ≤ 0xBF) then
          ((b - 0xE0) * 4096 + (b2 - 0x80) * 64 + (b3 - 0x80)) :: utf8LossyDecode rest2
        else 0xFFFD :: utf8LossyDecode (b2 :: b3 :: rest2)
      | other => 0xFFFD :: utf8LossyDecode other
    else if 0xF0 ≤ b ∧ b ≤ 0xF4 then
      match rest with
      | b2 :: b3 :: b4 :: rest2 =>
        if (0x80 ≤ b2 ∧ b2 ≤ 0xBF) ∧ (0x80 ≤ b3 ∧ b3 ≤ 0xBF) ∧ (0x80 ≤ b4 ∧ b4 ≤ 0xBF) then
          ((b - 0xF0) * 262144 + (b2 - 0x80) * 4096 + (b3 - 0x80) * 64 + (b4 - 0x80)) ::
            utf8LossyDecode rest2
        else 0xFFFD :: utf8LossyDecode (b2 :: b3 :: b4 :: rest2)
      | other => 0xFFFD :: utf8LossyDecode other
    else 0xFFFD :: utf8LossyDecode rest

/-- Modelled from the spec: windows-1252 single-byte decode (the WHATWG
decoder behind the `iso-8859-1` / `us-ascii` label family). -/
def win1252Char (b : Nat) : Nat :=
  if b < 0x80 ∨ b > 0x9F then b
  else if b = 0x80 then 0x20AC else if b = 0x82 then 0x201A
  else if b = 0x83 then 0x192 else if b = 0x84 then 0x201E
  else if b = 0x85 then 0x2026 else if b = 0x86 then 0x2020
  else if b = 0x87 then 0x2021 else if b = 0x88 then 0x2C6
  else if b = 0x89 then 0x2030 else if b = 0x8A then 0x160
  else if b = 0x8B then 0x2039 else if b = 0x8C then 0x152
  else if b = 0x8E then 0x17D else if b = 0x91 then 0x2018
  else if b = 0x92 then 0x2019 else if b = 0x93 then 0x201C
  else if b = 0x94 then 0x201D else if b = 0x95 then 0x2022
  else if b = 0x96 then 0x2013 else if b = 0x97 then 0x2014
  else if b = 0x98 then 0x2DC else if b = 0x99 then 0x2122
  else if b = 0x9A then 0x161 else if b = 0x9B then 0x203A
  else if b = 0x9C then 0x153 else if b = 0x9E then 0x17E
  else if b = 0x9F then 0x178 else 0xFFFD

/-- Modelled from the spec: the external WHATWG/IANA charset registry
(`encoding::label::encoding_from_whatwg_label`) restricted to the label
families relevant to this crate (the UTF-8 family and the
Latin-1/windows-1252 family); every other label — such as `garbage` — is
unrecognized and yields `none`.  Labels are matched after trimming and
lower-casing, as the registry does.  Only the recognized/unrecognized
distinction is load-bearing in the theorems below. -/
def whatwgDecode (label : List Nat) : Option (List Nat → List Nat) :=
  let l := strToLower (trimStr label)
  if l = str ("utf-8") ∨ l = str ("utf8") ∨ l = str ("unicode-1-1-utf-8") then
    some utf8LossyDecode
  else if l = str ("iso-8859-1") ∨ l = str ("iso8859-1") ∨ l = str ("iso88591") ∨
          l = str ("latin1") ∨ l = str ("l1") ∨ l = str ("us-ascii") ∨
          l = str ("ascii") ∨ l = str ("windows-1252") ∨ l = str ("cp1252") then
    some (List.map win1252Char)
  else none

/-- `MailHeader::decode_word` of `src/lib.rs`.  (The quotes around the `?`
in two of the source error messages are elided here.) -/
def decodeWord (encoded : List Nat) : Except MailParseError (List Nat) :=
  match idxOfSub encoded [63] with
  | none => .error (.Generic ("Unable to find ? inside encoded-word") 0)
  | some ix1 =>
    match findFrom encoded (ix1 + 1) [63] with
    | none => .error (.Generic ("Unable to find second ? inside encoded-word") (ix1 + 1))
    | some ix2 =>
      let charset := listSlice encoded 0 ix1
      let transferCoding := listSlice encoded (ix1 + 1) ix2
      let input := encoded.drop (ix2 + 1)
      let decoded : Except MailParseError (List Nat) :=
        if transferCoding = [66] then base64Decode (utf8Encode input)
        else if transferCoding = [81] then
          .ok (qpDecodeRobust (utf8Encode (input.map (fun c => if c = 95 then 32 else c))))
        else .error (.Generic ("Unknown transfer-coding name found in encoded-word") (ix1 + 1))
      match decoded with
      | .error e => .error e
      | .ok dbytes =>
        match whatwgDecode charset with
        | none => .error (.Generic ("Unknown charset found in encoded-word") 0)
        | some conv => .ok (conv dbytes)

/-- Inner loop of `get_value` searching for a boundary-valid closing `?=`
from `ix_end_search` on.  The fuel decrements once per iteration and each
iteration advances the search position by at least two, so the initial fuel
`line.length + 2` used at the call site is never exhausted. -/
def scanEnd (line : List Nat) : Nat → Nat → Option Nat
  | 0, _ => none
  | fuel + 1, ixEndSearch =>
    match findFrom line ixEndSearch [63, 61] with
    | some ixEnd =>
      if !(isBoundary line (some (ixEnd + 2))) then scanEnd line fuel (ixEnd + 2)
      else some ixEnd
    | none => none

/-- Per-line scan loop of `get_value` from search position `ix_search`,
producing the reconstructed text of the line.  The fuel decrements once per
iteration and each iteration advances the search position by at least two,
so the initial fuel `line.length + 2` used at the call site is never
exhausted. -/
def scanLine (line : List Nat) : Nat → Nat → List Nat
  | 0, _ => []
  | fuel + 1, ixSearch =>
    match findFrom line ixSearch [61, 63] with
    | none => line.drop ixSearch
    | some v =>
      let ixBegin := v + 2
      if !(isBoundary line (checkedSub ixBegin 3)) then
        listSlice line ixSearch ixBegin ++ scanLine line fuel ixBegin
      else
        listSlice line ixSearch (ixBegin - 2) ++
        (match scanEnd line (line.length + 2) ixBegin with
         | some ixEnd =>
           (match decodeWord (listSlice line ixBegin ixEnd) with
            | .ok w => w
            | .error _ => listSlice line (ixBegin - 2) (ixEnd + 2)) ++
           scanLine line fuel (ixEnd + 2)
         | none => [61, 63] ++ scanLine line fuel (ixSearch + 2))

/-- Split at every occurrence of `sep`, producing `n + 1` pieces for `n`
separators (Rust `str::split`). -/
def splitOnChar (sep : Nat) : List Nat → List (List Nat)
  | [] => [[]]
  | c :: t =>
    let r := splitOnChar sep t
    if c = sep then [] :: r
    else
      match r with
      | [] => [[c]]
      | h :: t2 => (c :: h) :: t2

/-- Rust `str::split_terminator`: like `split`, but a trailing empty piece
(from a trailing separator or an empty input) is dropped. -/
def splitTerminator (sep : Nat) (l : List Nat) : List (List Nat) :=
  let p := splitOnChar sep l
  if p.getLast? = some [] then p.dropLast else p

/-- One piece of `str::lines`: strip one trailing CR. -/
def stripCR (l : List Nat) : List Nat :=
  if l.getLast? = some 13 then l.dropLast else l

/-- Rust `str::lines` as of the 2016 toolchain this crate targets: split
with terminator semantics on LF, stripping one trailing CR from each piece
(the behaviour the crate test with CRLF headers relies on). -/
def linesOf (s : List Nat) : List (List Nat) :=
  (splitTerminator 10 s).map stripCR

/-- Body of `MailHeader::get_value`: join the `trim_left`-ed lines of the
value with single spaces, reconstructing each line through the
encoded-word scan. -/
def getValueStr (value : List Nat) : List Nat :=
  List.intercalate [32]
    ((linesOf value).map (fun l0 =>
      let line := trimLeft l0
      scanLine line (line.length + 2) 0))

/-- `MailHeader::get_value` of `src/lib.rs`.  The leading ISO-8859-1 strict
decode of the value bytes is total, and every `decode_word` failure is
caught in the scan, so the function always returns `Ok`. -/
def getValue (value : List Nat) : Except MailParseError (List Nat) :=
  .ok (getValueStr value)

/-- `MailHeaderMap::get_first_value` for `Vec<MailHeader>`. -/
def getFirstValue (headers : List MailHeader) (key : List Nat) :
    Except MailParseError (Option (List Nat)) :=
  match headers with
  | [] => .ok none
  | x :: rest =>
    match getKey x.key with
    | .error e => .error e
    | .ok k => if k = key then (getValue x.value).map (fun v => some v)
               else getFirstValue rest key

/-- `MailHeaderMap::get_all_values` for `Vec<MailHeader>`. -/
def getAllValues (headers : List MailHeader) (key : List Nat) :
    Except MailParseError (List (List Nat)) :=
  match headers with
  | [] => .ok []
  | x :: rest =>
    match getKey x.key with
    | .error e => .error e
    | .ok k =>
      match getAllValues rest key with
      | .error e => .error e
      | .ok vs =>
        if k = key then
          match getValue x.value with
          | .error e => .error e
          | .ok v => .ok (v :: vs)
        else .ok vs

/-- `ParsedContentType` of `src/lib.rs`. -/
structure ParsedContentType where
  mimetype : List Nat
  charset : List Nat
  boundary : Option (List Nat)
deriving Repr, DecidableEq

/-- Attribute and (unquoted) value of one `parse_content_type` parameter
token whose `=` sits at `ixEq`: the attribute is trimmed and lower-cased,
the value trimmed and stripped of one layer of surrounding double quotes.
`none` models the `&value[1..value.len() - 1]` slice panic, reached exactly
when the trimmed value is the single character `"` (it then both starts and
ends with a double quote but has length one, so the slice bounds are
`1..0`). -/
def paramAttrValue (param : List Nat) (ixEq : Nat) : Option (List Nat × List Nat) :=
  let attr := strToLower (trimStr (listSlice param 0 ixEq))
  let value0 := trimStr (param.drop (ixEq + 1))
  if value0.headD 0 = 34 ∧ value0.getLast? = some 34 then
    if value0.length = 1 then none
    else some (attr, listSlice value0 1 (value0.length - 1))
  else some (attr, value0)

/-- Parameter loop of `parse_content_type` over the tokens after the first,
carrying the current charset and boundary; `none` is the quote-stripping
panic of `paramAttrValue`. -/
def ctLoop : List (List Nat) → List Nat → Option (List Nat) →
    Option (List Nat × Option (List Nat))
  | [], cs, bd => some (cs, bd)
  | param :: rest, cs, bd =>
    match idxOfSub param [61] with
    | none => ctLoop rest cs bd
    | some ixEq =>
      match paramAttrValue param ixEq with
      | none => none
      | some (attr, value) =>
        if attr = str ("charset") then ctLoop rest (strToLower value) bd
        else if attr = str ("boundary") then ctLoop rest cs (some value)
        else ctLoop rest cs bd

/-- `parse_content_type` of `src/lib.rs`.  The `text/plain` default
installed first is unconditionally overwritten by the trimmed, lower-cased
first `;`-token, even when that token is empty (the source computes the
mimetype before running the parameter loop; the two computations are
independent, so they are combined here after the loop). -/
def parseContentType (header : List Nat) : Res (Except MailParseError ParsedContentType) :=
  match ctLoop (splitOnChar 59 header).tail (str ("us-ascii")) none with
  | none => .panics
  | some (cs, bd) =>
    .ret (.ok { mimetype := strToLower (trimStr ((splitOnChar 59 header).headD [])),
                charset := cs, boundary := bd })

/-- The offset adjustment `parse_headers` applies to errors coming out of
`parse_header` on the suffix starting at `ix`. -/
def remapErr (e : MailParseError) (ix : Nat) : MailParseError :=
  match e with
  | .Generic d p => .Generic d (p + ix)
  | e => e

/-- Loop of `parse_headers`.  Each iteration advances `ix` by at least one
(a successful `parse_header` consumes at least one byte), so the initial
fuel `rawData.length + 1` is never exhausted. -/
def parseHeadersLoop (rawData : List Nat) :
    Nat → Nat → List MailHeader → Res (Except MailParseError (List MailHeader × Nat))
  | 0, _, _ => .fuelOut
  | fuel + 1, ix, headers =>
    match parseHeader (rawData.drop ix) with
    | .error e => .ret (.error (remapErr e ix))
    | .ok (header, ixNext) =>
      let headers2 := headers ++ [header]
      let ix2 := ix + ixNext
      if ix2 ≥ rawData.length then .ret (.ok (headers2, ix2))
      else if rawData.getD ix2 0 = 10 then .ret (.ok (headers2, ix2 + 1))
      else if rawData.getD ix2 0 = 13 then
        if ix2 + 1 < rawData.length ∧ rawData.getD (ix2 + 1) 0 = 10 then
          .ret (.ok (headers2, ix2 + 2))
        else .ret (.error (.Generic ("Headers were followed by an unexpected lone CR character!") 0))
      else parseHeadersLoop rawData fuel ix2 headers2

/-- `parse_headers` of `src/lib.rs`. -/
def parseHeaders (rawData : List Nat) : Res (Except MailParseError (List MailHeader × Nat)) :=
  parseHeadersLoop rawData (rawData.length + 1) 0 []

/-- `ParsedMail` of `src/lib.rs`. -/
inductive ParsedMail where
  | mk : List MailHeader → ParsedContentType → List Nat → List ParsedMail → ParsedMail
deriving Repr

def ParsedMail.headers : ParsedMail → List MailHeader
  | .mk h _ _ _ => h

def ParsedMail.ctype : ParsedMail → ParsedContentType
  | .mk _ c _ _ => c

def ParsedMail.body : ParsedMail → List Nat
  | .mk _ _ b _ => b

def ParsedMail.subparts : ParsedMail → List ParsedMail
  | .mk _ _ _ s => s

/-- The `while let` loop of `parse_mail` collecting subparts, parameterized
by the recursive call `pr`.  Each iteration strictly advances
`ix_boundary_end`, so the fuel `rawData.length + 1` supplied at the call
site is never exhausted. -/
def parseMailLoop (pr : List Nat → Res (Except MailParseError ParsedMail))
    (rawData bndry : List Nat) :
    Nat → Nat → List ParsedMail → Res (Except MailParseError (List ParsedMail))
  | 0, _, _ => .fuelOut
  | fuel + 1, ixBoundaryEnd, subparts =>
    match findFromU8 rawData ixBoundaryEnd [10] with
    | .panics => .panics
    | .fuelOut => .fuelOut
    | .ret none => .ret (.ok subparts)
    | .ret (some v) =>
      let ixPartStart := v + 1
      match findFromU8 rawData ixPartStart bndry with
      | .panics => .panics
      | .fuelOut => .fuelOut
      | .ret none =>
        .ret (.error (.Generic ("Unable to terminating boundary of multipart message") 0))
      | .ret (some ixPartEnd) =>
        match pr (listSlice rawData ixPartStart ixPartEnd) with
        | .panics => .panics
        | .fuelOut => .fuelOut
        | .ret (.error e) => .ret (.error e)
        | .ret (.ok sub) =>
          let subparts2 := subparts ++ [sub]
          let ixBE2 := ixPartEnd + bndry.length
          if ixBE2 + 2 ≤ rawData.length ∧ rawData.getD ixBE2 0 = 45 ∧
              rawData.getD (ixBE2 + 1) 0 = 45 then
            .ret (.ok subparts2)
          else parseMailLoop pr rawData bndry fuel ixBE2 subparts2

/-- Body of `parse_mail`, parameterized by the recursive call `pr`. -/
def parseMailBody (pr : List Nat → Res (Except MailParseError ParsedMail))
    (rawData : List Nat) : Res (Except MailParseError ParsedMail) :=
  match parseHeaders rawData with
  | .panics => .panics
  | .fuelOut => .fuelOut
  | .ret (.error e) => .ret (.error e)
  | .ret (.ok (headers, ixBody)) =>
    match getFirstValue headers (str ("Content-Type")) with
    | .error e => .ret (.error e)
    | .ok octype =>
      let ctypeRes : Res (Except MailParseError ParsedContentType) :=
        match octype with
        | some s => parseContentType s
        | none => .ret (.ok { mimetype := str ("text/plain"),
                              charset := str ("us-ascii"), boundary := none })
      match ctypeRes with
      | .panics => .panics
      | .fuelOut => .fuelOut
      | .ret (.error e) => .ret (.error e)
      | .ret (.ok ctype) =>
        match ctype.boundary with
        | some b =>
          if (str ("multipart/")).isPrefixOf ctype.mimetype then
            let bndry := utf8Encode ([45, 45] ++ b)
            match findFromU8 rawData ixBody bndry with
            | .panics => .panics
            | .fuelOut => .fuelOut
            | .ret none => .ret (.ok (.mk headers ctype (rawData.drop ixBody) []))
            | .ret (some ixBodyEnd) =>
              match parseMailLoop pr rawData bndry (rawData.length + 1)
                  (ixBodyEnd + bndry.length) [] with
              | .panics => .panics
              | .fuelOut => .fuelOut
              | .ret (.error e) => .ret (.error e)
              | .ret (.ok subs) =>
                .ret (.ok (.mk headers ctype (listSlice rawData ixBody ixBodyEnd) subs))
          else .ret (.ok (.mk headers ctype (rawData.drop ixBody) []))
        | none => .ret (.ok (.mk headers ctype (rawData.drop ixBody) []))

/-- `parse_mail` by fuel: the recursion of the source always descends to a
strictly shorter sub-buffer, so fuel `rawData.length + 1` suffices. -/
def parseMailF : Nat → List Nat → Res (Except MailParseError ParsedMail)
  | 0, _ => .fuelOut
  | fuel + 1, rawData => parseMailBody (parseMailF fuel) rawData

/-- `parse_mail` of `src/lib.rs`. -/
def parseMail (rawData : List Nat) : Res (Except MailParseError ParsedMail) :=
  parseMailF (rawData.length + 1) rawData

/-- `true` iff `k` occurs as a contiguous factor of `l`. -/
def occursIn (k l : List Nat) : Bool := (idxOfSub l k).isSome

/-- The charset that one parameter token contributes (the token has an `=`,
its attribute is `charset`, and its value does not panic the quote
stripper), mirroring the corresponding path of `ctLoop`. -/
def charsetValOf (param : List Nat) : Option (List Nat) :=
  match idxOfSub param [61] with
  | none => none
  | some ixEq =>
    match paramAttrValue param ixEq with
    | none => none
    | some (attr, value) =>
      if attr = str ("charset") then some (strToLower value) else none

/-- The multipart condition of `parse_mail`: the mimetype starts with
`multipart/`, a boundary parameter was declared, and the `--`-prefixed
delimiter was located in the body region starting at `n`. -/
def multipartLocated (raw : List Nat) (n : Nat) (ct : ParsedContentType) : Prop :=
  (str ("multipart/")).isPrefixOf ct.mimetype = true ∧
  ∃ b q, ct.boundary = some b ∧
    findFromU8 raw n (utf8Encode ([45, 45] ++ b)) = .ret (some q)

/-- The per-node invariant of claim C6: subparts are non-empty only if the
multipart condition held, and whenever it did not hold the node is a leaf
whose body is everything after the header block. -/
def NodeOk (raw : List Nat) (m : ParsedMail) : Prop :=
  ∀ hs n, parseHeaders raw = .ret (.ok (hs, n)) →
    (m.subparts ≠ [] → multipartLocated raw n m.ctype) ∧
    (¬ multipartLocated raw n m.ctype → m.subparts = [] ∧ m.body = raw.drop n)

mutual
/-- The tree invariant of claim C6: every node of the tree satisfies
`NodeOk` for the buffer it was parsed from, and every subpart is the
`parse_mail` result of some sub-buffer. -/
inductive TreeOk : List Nat → ParsedMail → Prop where
  | node (raw : List Nat) (m : ParsedMail) (hnode : NodeOk raw m)
      (hsubs : SubsOk m.subparts) : TreeOk raw m
/-- Each member of a subpart list is the successful `parse_mail` result of
some buffer and itself satisfies the tree invariant for that buffer. -/
inductive SubsOk : List ParsedMail → Prop where
  | nil : SubsOk []
  | cons (sraw : List Nat) (s : ParsedMail) (rest : List ParsedMail)
      (hp : parseMail sraw = .ret (.ok s)) (ht : TreeOk sraw s)
      (hr : SubsOk rest) : SubsOk (s :: rest)
end

/-- Claim C1: the spec asserts that every public parse function returns a
`Result` with no unchecked failure path.  The code violates this: on a
content-type parameter whose value trims to a single double quote,
`parse_content_type` panics in the slice `&value[1..value.len() - 1]`
(bounds `1..0`), and on a multipart message with a declared boundary whose
header block consumes the entire buffer, `parse_mail` panics in the
`assert!(ix_start < line.len())` of `find_from_u8` (called with
`ix_body = raw_data.len()`). -/
theorem C1_parse_panics :
    parseContentType (str ("text/plain; charset=\"")) = .panics ∧
    parseMail (str ("Content-Type: multipart/a; boundary=b\n")) = .panics :=
  ⟨rfl, rfl⟩

/-- Claim C2, counterexample: on the empty header value the first
`;`-token is empty after trimming, yet the returned mimetype is the empty
string, not the claimed default `text/plain` — which also refutes the
claimed invariant that the mimetype is never empty. -/
theorem C2_counterexample :
    parseContentType [] =
      .ret (.ok { mimetype := [], charset := str ("us-ascii"), boundary := none }) ∧
    ([] : List Nat) ≠ str ("text/plain") :=
  ⟨rfl, by decide⟩

/-- Claim C3, counterexample: the header value `=?utf-8?Z?abc?=` is a
well-delimited encoded-word candidate whose transfer-coding letter `Z` is
neither `B` nor `Q`; the claim says `get_value` returns an error, but the
code catches the `decode_word` failure and returns `Ok` with the literal
text (mirroring the crate test on `=?garbage?Q??=`). -/
theorem C3_counterexample :
    parseHeader (str ("Subject: =?utf-8?Z?abc?=")) =
      .ok ({ key := str ("Subject"), value := str ("=?utf-8?Z?abc?=") }, 24) ∧
    getValue (str ("=?utf-8?Z?abc?=")) = .ok (str ("=?utf-8?Z?abc?=")) :=
  ⟨rfl, rfl⟩

/-- Claim C4: the line `ab =?xyz` has a boundary-valid opening `=?` at
index 3 (preceded by a space) and no closing `?=` anywhere, so the claim
requires the output to contain the literal tail `=?xyz` unchanged.  The
code instead resumes scanning at the old search position plus two,
re-emitting the space before the `=?` and a stray `=?`, producing
`ab =? =??xyz` — in which `=?xyz` does not occur. -/
theorem C4_unterminated_word_mangled :
    idxOfSub (str ("ab =?xyz")) [61, 63] = some 3 ∧
    isBoundary (str ("ab =?xyz")) (checkedSub 5 3) = true ∧
    idxOfSub ((str ("ab =?xyz")).drop 5) [63, 61] = none ∧
    getValue (str ("ab =?xyz")) = .ok (str ("ab =? =??xyz")) ∧
    occursIn (str ("=?xyz")) (str ("ab =? =??xyz")) = false :=
  ⟨rfl, rfl, rfl, rfl, rfl⟩

/-- Claim C7: in `NotSeparateWord: hello=?utf-8?Q?world?=` the `=?` is
immediately preceded by the non-whitespace character `o`, so the
encoded-word is not decoded and `get_value` returns the value text
unchanged. -/
theorem C7_not_separate_word :
    parseHeader (str ("NotSeparateWord: hello=?utf-8?Q?world?=")) =
      .ok ({ key := str ("NotSeparateWord"), value := str ("hello=?utf-8?Q?world?=") }, 39) ∧
    getValue (str ("hello=?utf-8?Q?world?=")) = .ok (str ("hello=?utf-8?Q?world?=")) :=
  ⟨rfl, rfl⟩

theorem idxOfSub_some_elim (key : List Nat) :
    ∀ (l : List Nat) (r : Nat), idxOfSub l key = some r →
      r ≤ l.length ∧ key <+: l.drop r ∧ ∀ j, j < r → ¬ key <+: l.drop j := by
  intro l
  induction l with
  | nil =>
    intro r h
    rw [idxOfSub] at h
    by_cases hp : key.isPrefixOf ([] : List Nat)
    · rw [if_pos hp] at h
      obtain rfl : (0 : Nat) = r := by injection h
      exact ⟨Nat.le_refl 0, (List.isPrefixOf_iff_prefix).mp hp, by omega⟩
    · rw [if_neg hp] at h
      exact absurd h (by simp)
  | cons c t ih =>
    intro r h
    rw [idxOfSub] at h
    by_cases hp : key.isPrefixOf (c :: t)
    · rw [if_pos hp] at h
      obtain rfl : (0 : Nat) = r := by injection h
      exact ⟨Nat.zero_le _, (List.isPrefixOf_iff_prefix).mp hp, by omega⟩
    · rw [if_neg hp] at h
      simp only [Option.map_eq_some'] at h
      obtain ⟨s, hs, rfl⟩ := h
      obtain ⟨hle, hpre, hmin⟩ := ih s hs
      refine ⟨by simpa using Nat.succ_le_succ hle, by simpa using hpre, ?_⟩
      intro j hj
      match j with
      | 0 =>
        simpa using fun hc => hp ((List.isPrefixOf_iff_prefix).mpr hc)
      | j2 + 1 =>
        simpa using hmin j2 (by omega)

theorem idxOfSub_some_intro (key : List Nat) :
    ∀ (l : List Nat) (r : Nat), key <+: l.drop r → (∀ j, j < r → ¬ key <+: l.drop j) →
      idxOfSub l key = some r := by
  intro l
  induction l with
  | nil =>
    intro r hpre hmin
    have hk : key = [] := List.prefix_nil.mp (by simpa using hpre)
    have hr : r = 0 := by
      by_contra hne
      exact hmin 0 (by omega) (by simp [hk])
    subst hk; subst hr
    rw [idxOfSub]
    simp [List.isPrefixOf_iff_prefix]
  | cons c t ih =>
    intro r hpre hmin
    match r with
    | 0 =>
      rw [idxOfSub]
      rw [if_pos ((List.isPrefixOf_iff_prefix).mpr (by simpa using hpre))]
    | s + 1 =>
      have hp : ¬ key.isPrefixOf (c :: t) := by
        intro hc
        exact hmin 0 (by omega) (by simpa using (List.isPrefixOf_iff_prefix).mp hc)
      rw [idxOfSub, if_neg hp]
      have := ih s (by simpa using hpre) (fun j hj => by simpa using hmin (j + 1) (by omega))
      simp [this]

theorem idxOfSub_none_elim (key : List Nat) :
    ∀ (l : List Nat), idxOfSub l key = none → ∀ j, ¬ key <+: l.drop j := by
  intro l
  induction l with
  | nil =>
    intro h j
    rw [idxOfSub] at h
    by_cases hp : key.isPrefixOf ([] : List Nat)
    · rw [if_pos hp] at h; exact absurd h (by simp)
    · intro hc
      have : key = [] := List.prefix_nil.mp (by simpa using hc)
      exact hp ((List.isPrefixOf_iff_prefix).mpr (by simp [this]))
  | cons c t ih =>
    intro h j
    rw [idxOfSub] at h
    by_cases hp : key.isPrefixOf (c :: t)
    · rw [if_pos hp] at h; exact absurd h (by simp)
    · rw [if_neg hp] at h
      simp only [Option.map_eq_none'] at h
      match j with
      | 0 => simpa using fun hc => hp ((List.isPrefixOf_iff_prefix).mpr hc)
      | j2 + 1 => simpa using ih h j2

theorem findFrom_some_intro {line key : List Nat} {s r : Nat}
    (hsr : s ≤ r) (hpre : key <+: line.drop r)
    (hmin : ∀ j, s ≤ j → j < r → ¬ key <+: line.drop j) :
    findFrom line s key = some r := by
  unfold findFrom
  have h1 : idxOfSub (line.drop s) key = some (r - s) := by
    apply idxOfSub_some_intro
    · rw [List.drop_drop]
      have hx : s + (r - s) = r := by omega
      rw [hx]
      exact hpre
    · intro j hj
      rw [List.drop_drop]
      exact hmin (s + j) (by omega) (by omega)
  rw [h1]
  simp
  omega

theorem findFrom_some_elim {line key : List Nat} {s r : Nat}
    (h : findFrom line s key = some r) :
    s ≤ r ∧ r ≤ s + (line.drop s).length ∧ key <+: line.drop r ∧
      ∀ j, s ≤ j → j < r → ¬ key <+: line.drop j := by
  unfold findFrom at h
  simp only [Option.map_eq_some'] at h
  obtain ⟨v, hv, rfl⟩ := h
  obtain ⟨hle, hpre, hmin⟩ := idxOfSub_some_elim key _ v hv
  refine ⟨by omega, by omega, ?_, ?_⟩
  · rw [List.drop_drop] at hpre
    exact hpre
  · intro j hjs hj
    have hx := hmin (j - s) (by omega)
    rw [List.drop_drop] at hx
    have he : s + (j - s) = j := by omega
    rw [he] at hx
    exact hx

theorem findFrom_none_of_ge {line key : List Nat} {s : Nat}
    (hk : key ≠ []) (h : line.length ≤ s) : findFrom line s key = none := by
  unfold findFrom
  have hd : line.drop s = [] := List.drop_eq_nil_of_le h
  rw [hd]
  rw [idxOfSub]
  rw [if_neg (by simpa [List.isPrefixOf_iff_prefix, List.prefix_nil] using hk)]
  rfl

theorem findLoop_some_iff (line key : List Nat) :
    ∀ (n i r : Nat), (findLoop line key i n = some r ↔
      i ≤ r ∧ r < i + n ∧ key <+: line.drop r ∧
        ∀ j, i ≤ j → j < r → ¬ key <+: line.drop j) := by
  intro n
  induction n with
  | zero =>
    intro i r
    rw [findLoop]
    constructor
    · intro h; exact absurd h (by simp)
    · intro ⟨h1, h2, _⟩; omega
  | succ m ih =>
    intro i r
    rw [findLoop]
    by_cases hp : key.isPrefixOf (line.drop i)
    · rw [if_pos hp]
      constructor
      · intro h
        obtain rfl : i = r := by injection h
        exact ⟨Nat.le_refl i, by omega, (List.isPrefixOf_iff_prefix).mp hp, by omega⟩
      · intro ⟨h1, h2, h3, h4⟩
        have : i = r := by
          by_contra hne
          exact h4 i (Nat.le_refl i) (by omega) ((List.isPrefixOf_iff_prefix).mp hp)
        simp [this]
    · rw [if_neg hp]
      rw [ih (i + 1) r]
      constructor
      · intro ⟨h1, h2, h3, h4⟩
        refine ⟨by omega, by omega, h3, ?_⟩
        intro j hj1 hj2
        match Nat.lt_or_ge j (i + 1) with
        | .inl hlt =>
          obtain rfl : j = i := by omega
          exact fun hc => hp ((List.isPrefixOf_iff_prefix).mpr hc)
        | .inr hge => exact h4 j hge hj2
      · intro ⟨h1, h2, h3, h4⟩
        have hne : i ≠ r := by
          intro hc
          subst hc
          exact hp ((List.isPrefixOf_iff_prefix).mpr h3)
        exact ⟨by omega, by omega, h3, fun j hj1 hj2 => h4 j (by omega) hj2⟩

theorem findLoop_none_iff (line key : List Nat) :
    ∀ (n i : Nat), (findLoop line key i n = none ↔
      ∀ j, i ≤ j → j < i + n → ¬ key <+: line.drop j) := by
  intro n
  induction n with
  | zero =>
    intro i
    rw [findLoop]
    simp
    omega
  | succ m ih =>
    intro i
    rw [findLoop]
    by_cases hp : key.isPrefixOf (line.drop i)
    · rw [if_pos hp]
      constructor
      · intro h; exact absurd h (by simp)
      · intro h
        exact absurd ((List.isPrefixOf_iff_prefix).mp hp) (h i (Nat.le_refl i) (by omega))
    · rw [if_neg hp]
      rw [ih (i + 1)]
      constructor
      · intro h j hj1 hj2
        match Nat.lt_or_ge j (i + 1) with
        | .inl hlt =>
          obtain rfl : j = i := by omega
          exact fun hc => hp ((List.isPrefixOf_iff_prefix).mpr hc)
        | .inr hge => exact h j hge (by omega)
      · intro h j hj1 hj2
        exact h j (by omega) (by omega)

theorem findFromU8_some_elim {line key : List Nat} {s r : Nat}
    (h : findFromU8 line s key = .ret (some r)) :
    key ≠ [] ∧ s ≤ r ∧ r + key.length < line.length ∧ key <+: line.drop r ∧
      ∀ j, s ≤ j → j < r → ¬ key <+: line.drop j := by
  unfold findFromU8 at h
  by_cases h1 : key.length = 0
  · rw [if_pos h1] at h; exact absurd h (by simp)
  rw [if_neg h1] at h
  by_cases h2 : ¬ s < line.length
  · rw [if_pos h2] at h; exact absurd h (by simp)
  rw [if_neg h2] at h
  by_cases h3 : line.length < key.length
  · rw [if_pos h3] at h; exact absurd h (by simp)
  rw [if_neg h3] at h
  by_cases h4 : s ≤ line.length - key.length
  · rw [if_pos h4] at h
    have h5 : findLoop line key s (line.length - key.length - s) = some r := by
      injection h
    rw [findLoop_some_iff] at h5
    obtain ⟨ha, hb, hc, hd⟩ := h5
    refine ⟨fun hc2 => h1 (by simp [hc2]), ha, by omega, hc, hd⟩
  · rw [if_neg h4] at h
    exact absurd h (by simp)

theorem findFromU8_some_intro {line key : List Nat} {s r : Nat}
    (hk : key ≠ []) (hs : s < line.length)
    (hsr : s ≤ r) (hend : r + key.length < line.length) (hpre : key <+: line.drop r)
    (hmin : ∀ j, s ≤ j → j < r → ¬ key <+: line.drop j) :
    findFromU8 line s key = .ret (some r) := by
  have h1 : ¬ key.length = 0 := by simpa using hk
  have h3 : ¬ line.length < key.length := by omega
  unfold findFromU8
  rw [if_neg h1, if_neg (by omega : ¬ ¬ s < line.length), if_neg h3,
    if_pos (by omega : s ≤ line.length - key.length)]
  have : findLoop line key s (line.length - key.length - s) = some r := by
    rw [findLoop_some_iff]
    exact ⟨hsr, by omega, hpre, hmin⟩
  rw [this]

theorem findFromU8_none_intro {line key : List Nat} {s : Nat}
    (hk : key ≠ []) (hs : s < line.length) (hlen : key.length ≤ line.length)
    (hmin : ∀ j, s ≤ j → j + key.length < line.length → ¬ key <+: line.drop j) :
    findFromU8 line s key = .ret none := by
  have h1 : ¬ key.length = 0 := by simpa using hk
  have h3 : ¬ line.length < key.length := by omega
  unfold findFromU8
  rw [if_neg h1, if_neg (by omega : ¬ ¬ s < line.length), if_neg h3]
  by_cases h4 : s ≤ line.length - key.length
  · rw [if_pos h4]
    have : findLoop line key s (line.length - key.length - s) = none := by
      rw [findLoop_none_iff]
      intro j hj1 hj2
      exact hmin j hj1 (by omega)
    rw [this]
  · rw [if_neg h4]

/-- An occurrence of `k` strictly inside the first `n` elements of `l`
is an infix of `l.take n`. -/
theorem infix_take_of_prefix_drop {k l : List Nat} {r n : Nat}
    (hpre : k <+: l.drop r) (hle : r + k.length ≤ n) : k <:+: l.take n := by
  have h1 : k <+: (l.drop r).take (n - r) := by
    rw [List.prefix_take_iff]
    exact ⟨hpre, by omega⟩
  have h2 : (l.drop r).take (n - r) = (l.take n).drop r := by
    rw [List.drop_take]
  rw [h2] at h1
  exact h1.isInfix.trans (List.drop_suffix r (l.take n)).isInfix

/-- Claim C9: `find_from_u8` scans `i` in `ix_start..ix_end` with
`ix_end = line.len() - key.len()` excluded, so a returned match can never
end at the final byte of the haystack; consequently the multipart message
whose closing delimiter `--b` sits flush at the end of the input fails with
the no-terminating-boundary error. -/
theorem C9_find_excludes_end (line : List Nat) (s : Nat) (key : List Nat) (r : Nat)
    (h : findFromU8 line s key = .ret (some r)) :
    r + key.length < line.length ∧
    parseMail (str ("Content-Type: multipart/x; boundary=b\n\n--b\nA: B\n\n--b")) =
      .ret (.error (.Generic ("Unable to terminating boundary of multipart message") 0)) :=
  ⟨(findFromU8_some_elim h).2.2.1, rfl⟩

/-- Witness for C9 at a concrete input (the occurrence of `o` at index 4 of
`hello world` ends strictly before the final byte). -/
theorem C9_witness :
    findFromU8 (str ("hello world")) 0 (str ("o")) = .ret (some 4) ∧
    4 + (str ("o")).length < (str ("hello world")).length :=
  ⟨rfl, (C9_find_excludes_end (str ("hello world")) 0 (str ("o")) 4 rfl).1⟩

theorem goH_key_newline :
    ∀ (mid rest : List Nat) (a : HAcc) (ix c : Nat) (it : List Nat),
      c :: it = mid ++ 10 :: rest → (∀ x ∈ mid, x ≠ 58 ∧ x ≠ 10) →
      goH .Key a ix c it =
        .error (.Generic ("Unexpected newline in header key") (ix + mid.length)) := by
  intro mid
  induction mid with
  | nil =>
    intro rest a ix c it heq _
    have hc : c = 10 := by injection heq
    subst hc
    rw [goH]
    simp [hStep]
  | cons m mid2 ih =>
    intro rest a ix c it heq hmem
    have hc : c = m := by injection heq
    have hit : it = mid2 ++ 10 :: rest := by injection heq
    subst hc
    subst hit
    have hm := hmem c (by simp)
    have hs : hStep .Key a ix c = .inr (.Key, a) := by
      simp [hStep, hm.1, hm.2]
    rw [goH, hs]
    cases hm2 : mid2 ++ 10 :: rest with
    | nil => exact absurd hm2 (by simp)
    | cons c2 it2 =>
      simp only []
      have hmem2 : ∀ x ∈ mid2, x ≠ 58 ∧ x ≠ 10 := fun x hx => hmem x (by simp [hx])
      have harith : ix + 1 + mid2.length = ix + (c :: mid2).length := by simp; omega
      rw [ih rest a (ix + 1) c2 it2 hm2.symm hmem2, harith]

/-- Claim C8: a newline byte inside a header key before any colon is a
structural error at exactly the index of that newline, and `parse_headers`
re-bases such offsets to the original buffer: `Bad\nKey` fails at offset 3
and `K:V\nBad\nKey` fails at offset 7. -/
theorem C8_newline_in_key (raw : List Nat) (i : Nat)
    (hi : i < raw.length)
    (hnl : raw.getD i 0 = 10)
    (hbefore : ∀ j ∈ List.range i, raw.getD j 0 ≠ 58 ∧ raw.getD j 0 ≠ 10)
    (hsp : raw.getD 0 0 ≠ 32) :
    parseHeader raw = .error (.Generic ("Unexpected newline in header key") i) ∧
    parseHeaders (str ("Bad\nKey")) =
      .ret (.error (.Generic ("Unexpected newline in header key") 3)) ∧
    parseHeaders (str ("K:V\nBad\nKey")) =
      .ret (.error (.Generic ("Unexpected newline in header key") 7)) := by
  refine ⟨?_, rfl, rfl⟩
  cases hr : raw with
  | nil => rw [hr] at hi; simp at hi
  | cons c it =>
    rw [hr] at hi hnl hbefore hsp
    have hc32 : c ≠ 32 := by simpa using hsp
    have hsplit : c :: it = (c :: it).take i ++ 10 :: (c :: it).drop (i + 1) := by
      conv_lhs => rw [← List.take_append_drop i (c :: it)]
      rw [List.drop_eq_getElem_cons hi]
      rw [← List.getD_eq_getElem (c :: it) 0 hi, hnl]
    have hmem : ∀ x ∈ (c :: it).take i, x ≠ 58 ∧ x ≠ 10 := by
      intro x hx
      obtain ⟨j, hj, hjx⟩ := List.mem_iff_getElem.mp hx
      have hjlen : j < i := by
        have := hj
        simp [List.length_take] at this
        omega
      have hb := hbefore j (List.mem_range.mpr hjlen)
      rw [List.getElem_take] at hjx
      rw [List.getD_eq_getElem (c :: it) 0 (by omega)] at hb
      rw [hjx] at hb
      exact hb
    have hgo := goH_key_newline ((c :: it).take i) ((c :: it).drop (i + 1))
      ⟨none, 0, 0⟩ 0 c it hsplit hmem
    have hlen : ((c :: it).take i).length = i := by
      rw [List.length_take]
      simp only [List.length_cons] at hi ⊢
      omega
    rw [hlen] at hgo
    rw [parseHeader]
    rw [if_neg hc32, hgo]
    simp

/-- Witness for C8: the theorem applied to the concrete buffer `A\nB`,
whose newline at index 1 precedes any colon. -/
theorem C8_witness :
    (1 < (str ("A\nB")).length ∧ (str ("A\nB")).getD 1 0 = 10 ∧
      (∀ j ∈ List.range 1, (str ("A\nB")).getD j 0 ≠ 58 ∧ (str ("A\nB")).getD j 0 ≠ 10) ∧
      (str ("A\nB")).getD 0 0 ≠ 32) ∧
    parseHeader (str ("A\nB")) = .error (.Generic ("Unexpected newline in header key") 1) :=
  ⟨⟨by decide, by decide, by decide, by decide⟩,
   (C8_newline_in_key (str ("A\nB")) 1 (by decide) (by decide) (by decide) (by decide)).1⟩

/-- Claim C10: `get_key` is the trimmed ISO-8859-1 decode of the key span —
`Key : Value` tokenizes to the key span `Key ` (trailing space kept) but
`get_key` yields `Key` — and the lookups compare the given key for exact,
case-sensitive equality against that trimmed decoded key: `get_first_value`
returns the (decoded) value of the first header whose trimmed key equals
the query, `get_all_values` the values of all of them in order, and the
query `key` does not match the header key `Key`. -/
theorem C10_get_key_trimmed_lookup (hs : List MailHeader) (q : List Nat) :
    parseHeader (str ("Key : Value")) =
      .ok ({ key := str ("Key "), value := str ("Value") }, 11) ∧
    getKey (str ("Key ")) = .ok (str ("Key")) ∧
    getFirstValue hs q =
      .ok (Option.map (fun h => getValueStr h.value)
        (hs.find? (fun h => trimStr h.key == q))) ∧
    getAllValues hs q =
      .ok ((hs.filter (fun h => trimStr h.key == q)).map (fun h => getValueStr h.value)) ∧
    getFirstValue [{ key := str ("Key "), value := str ("Value") }] (str ("key")) = .ok none := by
  refine ⟨rfl, rfl, ?_, ?_, rfl⟩
  · induction hs with
    | nil => rfl
    | cons x rest ih =>
      by_cases hx : trimStr x.key = q
      · simp [getFirstValue, getKey, getValue, Except.map, List.find?_cons, hx]
      · simp [getFirstValue, getKey, getValue, List.find?_cons, hx, ih]
  · induction hs with
    | nil => rfl
    | cons x rest ih =>
      by_cases hx : trimStr x.key = q
      · simp [getAllValues, getKey, getValue, List.filter_cons, hx, ih]
      · simp [getAllValues, getKey, getValue, List.filter_cons, hx, ih]

/-- Witness for C10 at a concrete header list. -/
theorem C10_witness :
    getFirstValue [{ key := str ("Key "), value := str ("Value") }] (str ("Key")) =
      .ok (Option.map (fun (h : MailHeader) => getValueStr h.value)
        (([({ key := str ("Key "), value := str ("Value") } : MailHeader)]).find?
          (fun h => trimStr h.key == str ("Key")))) :=
  (C10_get_key_trimmed_lookup [{ key := str ("Key "), value := str ("Value") }]
    (str ("Key"))).2.2.1

theorem ctLoop_charset :
    ∀ (toks : List (List Nat)) (cs : List Nat) (bd : Option (List Nat))
      (out : List Nat × Option (List Nat)), ctLoop toks cs bd = some out →
      out.1 = cs ∨ ∃ t ∈ toks, charsetValOf t = some out.1 := by
  intro toks
  induction toks with
  | nil =>
    intro cs bd out h
    rw [ctLoop] at h
    left
    obtain rfl : (cs, bd) = out := by injection h
    rfl
  | cons param rest ih =>
    intro cs bd out h
    rw [ctLoop] at h
    cases hix : idxOfSub param [61] with
    | none =>
      rw [hix] at h
      rcases ih cs bd out h with h1 | ⟨t, ht, hv⟩
      · exact .inl h1
      · exact .inr ⟨t, by simp [ht], hv⟩
    | some ixEq =>
      simp only [hix] at h
      cases hpv : paramAttrValue param ixEq with
      | none =>
        simp only [hpv] at h
        exact absurd h (by simp)
      | some av =>
        obtain ⟨attr, value⟩ := av
        simp only [hpv] at h
        by_cases hca : attr = str ("charset")
        · rw [if_pos hca] at h
          rcases ih _ _ _ h with h1 | ⟨t, ht, hv⟩
          · refine .inr ⟨param, by simp, ?_⟩
            simp only [charsetValOf, hix, hpv]
            rw [if_pos hca, h1]
          · exact .inr ⟨t, by simp [ht], hv⟩
        · rw [if_neg hca] at h
          by_cases hbd : attr = str ("boundary")
          · rw [if_pos hbd] at h
            rcases ih _ _ _ h with h1 | ⟨t, ht, hv⟩
            · exact .inl h1
            · exact .inr ⟨t, by simp [ht], hv⟩
          · rw [if_neg hbd] at h
            rcases ih _ _ _ h with h1 | ⟨t, ht, hv⟩
            · exact .inl h1
            · exact .inr ⟨t, by simp [ht], hv⟩

/-- Claim C2 as amended: the trimmed, lower-cased first `;`-token becomes
the mimetype even when it is empty (the `text/plain` default is
overwritten, so the mimetype of an empty first token is the empty string),
and the returned charset can be empty only when some explicit `charset`
parameter contributes an empty value — otherwise it is non-empty. -/
theorem C2_amended (s : List Nat) (ct : ParsedContentType)
    (h : parseContentType s = .ret (.ok ct)) :
    ct.mimetype = strToLower (trimStr ((splitOnChar 59 s).headD [])) ∧
    (ct.charset = [] → ∃ t ∈ (splitOnChar 59 s).tail, charsetValOf t = some []) := by
  cases hcl : ctLoop (splitOnChar 59 s).tail (str ("us-ascii")) none with
  | none =>
    have key : parseContentType s = .panics := by rw [parseContentType, hcl]
    rw [key] at h
    exact absurd h (by simp)
  | some out =>
    obtain ⟨cs, bd⟩ := out
    have key : parseContentType s =
        .ret (.ok { mimetype := strToLower (trimStr ((splitOnChar 59 s).headD [])),
                    charset := cs, boundary := bd }) := by
      rw [parseContentType, hcl]
    have h5 : ({ mimetype := strToLower (trimStr ((splitOnChar 59 s).headD [])),
                 charset := cs, boundary := bd } : ParsedContentType) = ct := by
      have h6 := key.symm.trans h
      injection h6 with h7
      injection h7
    rw [← h5]
    refine ⟨rfl, ?_⟩
    intro hempty
    have hcs : cs = [] := hempty
    rcases ctLoop_charset _ _ _ _ hcl with h1 | ⟨t, ht, hv⟩
    · have h1b : ([] : List Nat) = str ("us-ascii") := by rw [← hcs]; exact h1
      exact absurd h1b (by decide)
    · exact ⟨t, ht, by rw [← hcs]; exact hv⟩

/-- Witness for C2 as amended, at the header value `;`: the empty first
token yields the empty mimetype. -/
theorem C2_amended_witness :
    parseContentType (str (";")) =
      .ret (.ok { mimetype := [], charset := str ("us-ascii"), boundary := none }) ∧
    ({ mimetype := [], charset := str ("us-ascii"), boundary := none } :
        ParsedContentType).mimetype =
      strToLower (trimStr ((splitOnChar 59 (str (";"))).headD [])) :=
  ⟨rfl, (C2_amended (str (";")) _ (by rfl)).1⟩

theorem splitOnChar_no_sep {sep : Nat} :
    ∀ (l : List Nat), sep ∉ l → splitOnChar sep l = [l] := by
  intro l
  induction l with
  | nil => intro _; rfl
  | cons c t ih =>
    intro hmem
    have hc : c ≠ sep := by intro hc; exact hmem (by simp [hc])
    have ht : sep ∉ t := fun hx => hmem (by simp [hx])
    rw [splitOnChar, ih ht]
    simp [fun hx : c = sep => hc hx]

theorem linesOf_single {l : List Nat} (hnl : (10 : Nat) ∉ l) (hne : l ≠ [])
    (hcr : l.getLast? ≠ some 13) : linesOf l = [l] := by
  rw [linesOf, splitTerminator, splitOnChar_no_sep l hnl]
  have h1 : ([l].getLast? = some []) = False := by
    simp only [List.getLast?]
    simp [hne]
  rw [if_neg (by simp [hne])]
  simp only [List.map]
  rw [stripCR, if_neg hcr]

theorem getElem_of_prefix_drop {k l : List Nat} {j i : Nat} (h : k <+: l.drop j)
    (hi : i < k.length) (hj : j + i < l.length) : l[j + i] = k[i] := by
  have h2 : i < (l.drop j).length := lt_of_lt_of_le hi h.length_le
  have h3 := List.IsPrefix.getElem h hi
  rw [List.getElem_drop] at h3
  exact h3.symm

theorem getElem_mem_drop_take {l : List Nat} {p q idx : Nat} (h1 : p ≤ idx) (h2 : idx < q)
    (h3 : idx < l.length) : l[idx] ∈ (l.drop p).take (q - p) := by
  have hlen : idx - p < ((l.drop p).take (q - p)).length := by
    simp only [List.length_take, List.length_drop]
    omega
  have he : ((l.drop p).take (q - p))[idx - p] = l[idx] := by
    rw [List.getElem_take, List.getElem_drop]
    congr 1
    omega
  rw [← he]
  exact List.getElem_mem hlen

theorem drop_at_append {l₁ l₂ X : List Nat} {n : Nat}
    (hx : X = l₁ ++ l₂) (hn : n = l₁.length) : X.drop n = l₂ := by
  subst hx
  subst hn
  exact List.drop_left _ _

theorem take_at_append {l₁ l₂ X : List Nat} {n : Nat}
    (hx : X = l₁ ++ l₂) (hn : n = l₁.length) : X.take n = l₁ := by
  subst hx
  subst hn
  exact List.take_left _ _

theorem decodeWord_structured (cs tc tx : List Nat)
    (hchars : ∀ x ∈ cs ++ tc ++ tx, x ≠ 63 ∧ x ≠ 61 ∧ x ≠ 10)
    (hcase : (tc ≠ [66] ∧ tc ≠ [81]) ∨ (tc = [81] ∧ whatwgDecode cs = none)) :
    ∃ e, decodeWord (cs ++ [63] ++ tc ++ [63] ++ tx) = .error e := by
  have hcs : ∀ x ∈ cs, x ≠ 63 ∧ x ≠ 61 ∧ x ≠ 10 := fun x hx => hchars x (by simp [hx])
  have htc : ∀ x ∈ tc, x ≠ 63 ∧ x ≠ 61 ∧ x ≠ 10 := fun x hx => hchars x (by simp [hx])
  have hlen : (cs ++ [63] ++ tc ++ [63] ++ tx).length =
      cs.length + tc.length + tx.length + 2 := by
    simp only [List.length_append, List.length_cons, List.length_nil]
    omega
  have hix1 : idxOfSub (cs ++ [63] ++ tc ++ [63] ++ tx) [63] = some cs.length := by
    apply idxOfSub_some_intro
    · rw [@drop_at_append (cs) ([63] ++ tc ++ [63] ++ tx) _ _
        (by simp [List.append_assoc]) rfl]
      exact List.prefix_append _ _
    · intro j hj hpre
      have hb1 : j + 0 < (cs ++ [63] ++ tc ++ [63] ++ tx).length := by omega
      have h63 : (cs ++ [63] ++ tc ++ [63] ++ tx)[j + 0] = 63 := by
        rw [getElem_of_prefix_drop hpre (by decide) (by omega)]
        rfl
      have hmem : (cs ++ [63] ++ tc ++ [63] ++ tx)[j + 0] ∈
          (((cs ++ [63] ++ tc ++ [63] ++ tx).drop 0).take (cs.length - 0)) :=
        getElem_mem_drop_take (by omega) (by omega) (by omega)
      rw [h63, List.drop_zero,
        @take_at_append (cs) ([63] ++ tc ++ [63] ++ tx) _ _
          (by simp [List.append_assoc]) (by omega)] at hmem
      exact (hcs 63 hmem).1 rfl
  have hix2 : findFrom (cs ++ [63] ++ tc ++ [63] ++ tx) (cs.length + 1) [63] =
      some (cs.length + 1 + tc.length) := by
    apply findFrom_some_intro
    · omega
    · rw [@drop_at_append (cs ++ [63] ++ tc) ([63] ++ tx) _ _
        (by simp [List.append_assoc])
        (by simp only [List.length_append, List.length_cons, List.length_nil]; try omega)]
      exact List.prefix_append _ _
    · intro j hj1 hj2 hpre
      have hb2 : j + 0 < (cs ++ [63] ++ tc ++ [63] ++ tx).length := by omega
      have h63 : (cs ++ [63] ++ tc ++ [63] ++ tx)[j + 0] = 63 := by
        rw [getElem_of_prefix_drop hpre (by decide) (by omega)]
        rfl
      have hmem : (cs ++ [63] ++ tc ++ [63] ++ tx)[j + 0] ∈
          (((cs ++ [63] ++ tc ++ [63] ++ tx).drop (cs.length + 1)).take
            (cs.length + 1 + tc.length - (cs.length + 1))) :=
        getElem_mem_drop_take (by omega) (by omega) (by omega)
      rw [h63,
        @drop_at_append (cs ++ [63]) (tc ++ ([63] ++ tx)) _ _
          (by simp [List.append_assoc])
          (by simp only [List.length_append, List.length_cons, List.length_nil]; try omega),
        @take_at_append (tc) ([63] ++ tx) _ _ (by simp [List.append_assoc])
          (by omega)] at hmem
      exact (htc 63 hmem).1 rfl
  have hslice1 : listSlice (cs ++ [63] ++ tc ++ [63] ++ tx) 0 cs.length = cs := by
    rw [listSlice, List.drop_zero]
    exact @take_at_append (cs) ([63] ++ tc ++ [63] ++ tx) _ _
      (by simp [List.append_assoc]) (by omega)
  have hslice2 : listSlice (cs ++ [63] ++ tc ++ [63] ++ tx) (cs.length + 1)
      (cs.length + 1 + tc.length) = tc := by
    rw [listSlice,
      @drop_at_append (cs ++ [63]) (tc ++ ([63] ++ tx)) _ _
        (by simp [List.append_assoc])
        (by simp only [List.length_append, List.length_cons, List.length_nil]; try omega)]
    exact @take_at_append (tc) ([63] ++ tx) _ _ (by simp [List.append_assoc])
      (by omega)
  have hinput : (cs ++ [63] ++ tc ++ [63] ++ tx).drop (cs.length + 1 + tc.length + 1) = tx :=
    @drop_at_append (cs ++ [63] ++ tc ++ [63]) (tx) _ _
      (by simp [List.append_assoc])
      (by simp only [List.length_append, List.length_cons, List.length_nil]; try omega)
  rcases hcase with ⟨hB, hQ⟩ | ⟨htq, hwg⟩
  · refine ⟨.Generic ("Unknown transfer-coding name found in encoded-word") (cs.length + 1), ?_⟩
    simp only [decodeWord, hix1, hix2, hslice1, hslice2, hinput]
    rw [if_neg hB, if_neg hQ]
  · refine ⟨.Generic ("Unknown charset found in encoded-word") 0, ?_⟩
    subst htq
    simp only [decodeWord, hix1, hix2, hslice1, hslice2, hinput, hwg]
    rw [if_neg (show ¬ ([81] : List Nat) = [66] by decide)]
    simp

/-- Claim C3 as amended: on a header value that is exactly a well-delimited
encoded-word candidate `=?cs?tc?tx?=` whose decode fails (the
transfer-coding letter is neither `B` nor `Q`, or it is `Q` and the charset
label is unrecognized), `get_value` does not abort: the `decode_word`
failure is caught and the literal text of the candidate, `=?` through `?=`,
is emitted unchanged, returning `Ok`. -/
theorem C3_amended (cs tc tx : List Nat)
    (hchars : ∀ x ∈ cs ++ tc ++ tx, x ≠ 63 ∧ x ≠ 61 ∧ x ≠ 10)
    (hcase : (tc ≠ [66] ∧ tc ≠ [81]) ∨ (tc = [81] ∧ whatwgDecode cs = none)) :
    getValue ([61, 63] ++ cs ++ [63] ++ tc ++ [63] ++ tx ++ [63, 61]) =
      .ok ([61, 63] ++ cs ++ [63] ++ tc ++ [63] ++ tx ++ [63, 61]) := by
  obtain ⟨L, hL⟩ : ∃ Y : List Nat,
      Y = [61, 63] ++ cs ++ [63] ++ tc ++ [63] ++ tx ++ [63, 61] := ⟨_, rfl⟩
  rw [← hL]
  have hlen : L.length = cs.length + tc.length + tx.length + 6 := by
    rw [hL]
    simp only [List.length_append, List.length_cons, List.length_nil]
    try omega
  have hLmem : ∀ x, x ∈ L → x = 61 ∨ x = 63 ∨ x ∈ cs ++ tc ++ tx := by
    intro x hx
    rw [hL] at hx
    simp only [List.mem_append, List.mem_cons, List.not_mem_nil, or_false] at hx
    simp only [List.mem_append]
    tauto
  have hno10 : (10 : Nat) ∉ L := by
    intro hmem
    rcases hLmem 10 hmem with h | h | h
    · exact absurd h (by decide)
    · exact absurd h (by decide)
    · exact (hchars 10 h).2.2 rfl
  have hlast : L.getLast? ≠ some 13 := by
    have hg : L.getLast? = some 61 := by
      rw [hL,
        show [61, 63] ++ cs ++ [63] ++ tc ++ [63] ++ tx ++ [63, 61] =
          ([61, 63] ++ cs ++ [63] ++ tc ++ [63] ++ tx) ++ [63, 61] from by
            simp [List.append_assoc],
        List.getLast?_append_of_ne_nil _ (by simp)]
      rfl
    rw [hg]
    simp
  have h1 : linesOf L = [L] := linesOf_single hno10 (by rw [hL]; simp) hlast
  have h2 : trimLeft L = L := by rw [hL]; rfl
  have hfind1 : findFrom L 0 [61, 63] = some 0 := by
    apply findFrom_some_intro (by omega)
    · rw [List.drop_zero, hL]
      exact List.prefix_append _ _
    · intro j hj1 hj2
      omega
  have hfind2 : findFrom L 2 [63, 61] = some (L.length - 2) := by
    apply findFrom_some_intro (by omega)
    · rw [@drop_at_append ([61, 63] ++ cs ++ [63] ++ tc ++ [63] ++ tx) ([63, 61]) _ _
        (by rw [hL]; try simp [List.append_assoc])
        (by simp only [hL, List.length_append, List.length_cons, List.length_nil]; try omega)]
    · intro j hj1 hj2 hpre
      have hbL : j + 1 < L.length := by omega
      have h61 : L[j + 1] = 61 := by
        rw [getElem_of_prefix_drop hpre (by decide) (by omega)]
        rfl
      have hmem : L[j + 1] ∈ ((L.drop 2).take (L.length - 1 - 2)) :=
        getElem_mem_drop_take (by omega) (by omega) (by omega)
      have hdt : (L.drop 2).take (L.length - 1 - 2) =
          cs ++ [63] ++ tc ++ [63] ++ tx ++ [63] := by
        have hd : L.drop 2 = cs ++ [63] ++ tc ++ [63] ++ tx ++ [63, 61] := by rw [hL]; rfl
        rw [hd]
        apply @take_at_append _ [61] _ _
        · simp [List.append_assoc]
        · simp only [List.length_append, List.length_cons, List.length_nil]
          simp only [List.length_append, List.length_cons, List.length_nil] at hlen
          omega
      rw [h61, hdt] at hmem
      have hcase61 : (61 : Nat) ∈ cs ++ tc ++ tx ∨ (61 : Nat) = 63 := by
        simp only [List.mem_append, List.mem_cons, List.not_mem_nil, or_false] at hmem ⊢
        tauto
      rcases hcase61 with h | h
      · exact (hchars 61 h).2.1 rfl
      · exact absurd h (by decide)
  have hb2 : isBoundary L (some (L.length - 2 + 2)) = true := by
    have hge : L.length - 2 + 2 ≥ L.length := by omega
    simp [isBoundary, hge]
  have hscanEnd : scanEnd L (L.length + 2) 2 = some (L.length - 2) := by
    rw [show L.length + 2 = (L.length + 1) + 1 from rfl, scanEnd]
    simp only [hfind2, hb2]
    simp
  have hslice0 : listSlice L 0 0 = [] := by simp [listSlice]
  have hsliceEnc : listSlice L 2 (L.length - 2) = cs ++ [63] ++ tc ++ [63] ++ tx := by
    rw [listSlice]
    have hd : L.drop 2 = cs ++ [63] ++ tc ++ [63] ++ tx ++ [63, 61] := by rw [hL]; rfl
    rw [hd]
    apply @take_at_append _ [63, 61] _ _
    · simp [List.append_assoc]
    · simp only [List.length_append, List.length_cons, List.length_nil]
      simp only [List.length_append, List.length_cons, List.length_nil] at hlen
      omega
  obtain ⟨e, he⟩ := decodeWord_structured cs tc tx hchars hcase
  have hsliceAll : listSlice L 0 (L.length - 2 + 2) = L := by
    rw [listSlice, List.drop_zero]
    have hx : L.length - 2 + 2 - 0 = L.length := by omega
    rw [hx]
    exact List.take_length ..
  have hrest : scanLine L (L.length + 1) (L.length - 2 + 2) = [] := by
    have h0 : L.length - 2 + 2 = L.length := by omega
    rw [h0, scanLine, findFrom_none_of_ge (by decide) (Nat.le_refl _)]
    simp
  have hmain : getValueStr L = L := by
    rw [getValueStr, h1]
    simp only [List.map]
    rw [h2]
    have hsingle : List.intercalate [32] [scanLine L (L.length + 2) 0] =
        scanLine L (L.length + 2) 0 := by simp [List.intercalate]
    rw [hsingle]
    rw [show L.length + 2 = (L.length + 1) + 1 from rfl, scanLine]
    simp only [hfind1]
    simp [hscanEnd, he, hsliceEnc, hsliceAll, hslice0, hrest, checkedSub, isBoundary]
    have he2 : decodeWord (cs ++ 63 :: (tc ++ 63 :: tx)) = .error e := by
      simpa using he
    simp [he2]
  rw [getValue, hmain]

/-- Witness for C3 as amended: the concrete family member
`=?utf-8?Z?hey?=` with unknown transfer-coding `Z` passes through
`get_value` unchanged. -/
theorem C3_amended_witness :
    ((∀ x ∈ (str ("utf-8")) ++ (str ("Z")) ++ (str ("hey")), x ≠ 63 ∧ x ≠ 61 ∧ x ≠ 10) ∧
      ((str ("Z")) ≠ [66] ∧ (str ("Z")) ≠ [81])) ∧
    getValue ([61, 63] ++ str ("utf-8") ++ [63] ++ str ("Z") ++ [63] ++ str ("hey") ++ [63, 61]) =
      .ok ([61, 63] ++ str ("utf-8") ++ [63] ++ str ("Z") ++ [63] ++ str ("hey") ++ [63, 61]) :=
  ⟨⟨by decide, by decide, by decide⟩,
   C3_amended (str ("utf-8")) (str ("Z")) (str ("hey")) (by decide)
     (.inl ⟨by decide, by decide⟩)⟩

/-- An occurrence of `K` starting strictly inside the `X` region of
`L.drop s = X ++ (K ++ Y)` would make `K` an infix of `(X ++ K).dropLast`. -/
theorem not_prefix_drop_of_middle {K L X Y : List Nat} {s j : Nat}
    (hd : L.drop s = X ++ (K ++ Y)) (hni : ¬ K <:+: (X ++ K).dropLast)
    (hs : s ≤ j) (hj : j < s + X.length) : ¬ K <+: L.drop j := by
  intro hpre
  have h0 : (X ++ (K ++ Y)).drop (j - s) = L.drop j := by
    rw [← hd, List.drop_drop]
    congr 1
    omega
  rw [← h0] at hpre
  have h2 : K <:+: (X ++ (K ++ Y)).take (X.length + K.length - 1) :=
    infix_take_of_prefix_drop hpre (by omega)
  apply hni
  have h3 : (X ++ (K ++ Y)).take (X.length + K.length - 1) = (X ++ K).dropLast := by
    rw [List.dropLast_eq_take]
    have hx : X ++ (K ++ Y) = (X ++ K) ++ Y := by simp [List.append_assoc]
    rw [hx, List.take_append_of_le_length
      (by simp only [List.length_append]; omega)]
    congr 1
    simp only [List.length_append]
  rw [← h3]
  exact h2

/-- If the suffix of `l` from `n` starts with byte `c`, then `getD n` is `c`. -/
theorem getD_of_drop_cons {l : List Nat} {n c : Nat} {rest : List Nat}
    (h : l.drop n = c :: rest) : l.getD n 0 = c := by
  have hn : n < l.length := by
    by_contra hc
    rw [List.drop_eq_nil_of_le (by omega)] at h
    exact absurd h (by simp)
  rw [List.getD_eq_getElem l 0 hn]
  have h2 := List.drop_eq_getElem_cons hn
  rw [h] at h2
  injection h2 with h3
  exact h3.symm

theorem parseMailLoop_congr (pr1 pr2 : List Nat → Res (Except MailParseError ParsedMail))
    (rawData bndry : List Nat)
    (hpr : ∀ a b, 1 ≤ a → b < rawData.length →
      pr1 (listSlice rawData a b) = pr2 (listSlice rawData a b)) :
    ∀ (lf ixBE : Nat) (acc : List ParsedMail),
      parseMailLoop pr1 rawData bndry lf ixBE acc =
        parseMailLoop pr2 rawData bndry lf ixBE acc := by
  intro lf
  induction lf with
  | zero => intro _ _; rfl
  | succ f ih =>
    intro ixBE acc
    rw [parseMailLoop, parseMailLoop]
    cases h1 : findFromU8 rawData ixBE [10] with
    | panics => rfl
    | fuelOut => rfl
    | ret o =>
      cases o with
      | none => rfl
      | some v =>
        simp only []
        cases h2 : findFromU8 rawData (v + 1) bndry with
        | panics => rfl
        | fuelOut => rfl
        | ret o2 =>
          cases o2 with
          | none => rfl
          | some ixPartEnd =>
            obtain ⟨hk, hvr, hend, _, _⟩ := findFromU8_some_elim h2
            have hbl : 0 < bndry.length := List.length_pos.mpr hk
            have hpr2 := hpr (v + 1) ixPartEnd (by omega) (by omega)
            simp only [hpr2]
            cases h3 : pr2 (listSlice rawData (v + 1) ixPartEnd) with
            | panics => rfl
            | fuelOut => rfl
            | ret r =>
              cases r with
              | error e => rfl
              | ok sub =>
                simp only []
                by_cases hcl : ixPartEnd + bndry.length + 2 ≤ rawData.length ∧
                    rawData.getD (ixPartEnd + bndry.length) 0 = 45 ∧
                    rawData.getD (ixPartEnd + bndry.length + 1) 0 = 45
                · rw [if_pos hcl, if_pos hcl]
                · rw [if_neg hcl, if_neg hcl]
                  exact ih (ixPartEnd + bndry.length) (acc ++ [sub])

theorem parseMailBody_congr (pr1 pr2 : List Nat → Res (Except MailParseError ParsedMail))
    (rawData : List Nat)
    (hpr : ∀ a b, 1 ≤ a → b < rawData.length →
      pr1 (listSlice rawData a b) = pr2 (listSlice rawData a b)) :
    parseMailBody pr1 rawData = parseMailBody pr2 rawData := by
  rw [parseMailBody, parseMailBody]
  cases h1 : parseHeaders rawData with
  | panics => rfl
  | fuelOut => rfl
  | ret r1 =>
    cases r1 with
    | error e => rfl
    | ok pr0 =>
      obtain ⟨headers, ixBody⟩ := pr0
      simp only []
      cases h2 : getFirstValue headers (str ("Content-Type")) with
      | error e => rfl
      | ok octype =>
        simp only []
        cases h3 : (match octype with
          | some s => parseContentType s
          | none => .ret (.ok { mimetype := str ("text/plain"),
                                charset := str ("us-ascii"), boundary := none })) with
        | panics => rfl
        | fuelOut => rfl
        | ret r3 =>
          cases r3 with
          | error e => rfl
          | ok ctype =>
            simp only []
            cases hb : ctype.boundary with
            | none => rfl
            | some b =>
              simp only []
              by_cases hmp : (str ("multipart/")).isPrefixOf ctype.mimetype
              · simp only [hmp]
                cases h4 : findFromU8 rawData ixBody (utf8Encode ([45, 45] ++ b)) with
                | panics => rfl
                | fuelOut => rfl
                | ret o4 =>
                  cases o4 with
                  | none => rfl
                  | some ixBodyEnd =>
                    simp only []
                    rw [parseMailLoop_congr pr1 pr2 rawData (utf8Encode ([45, 45] ++ b)) hpr]
              · simp only [hmp]
                rfl

theorem parseMailF_mono :
    ∀ (n : Nat) (rawData : List Nat) (f1 f2 : Nat), rawData.length ≤ n →
      rawData.length < f1 → rawData.length < f2 →
      parseMailF f1 rawData = parseMailF f2 rawData := by
  intro n
  induction n with
  | zero =>
    intro raw f1 f2 h0 h1 h2
    obtain ⟨g1, rfl⟩ : ∃ g, f1 = g + 1 := ⟨f1 - 1, by omega⟩
    obtain ⟨g2, rfl⟩ : ∃ g, f2 = g + 1 := ⟨f2 - 1, by omega⟩
    rw [parseMailF, parseMailF]
    apply parseMailBody_congr
    intro a b ha hb
    exact absurd hb (by omega)
  | succ m ih =>
    intro raw f1 f2 h0 h1 h2
    obtain ⟨g1, rfl⟩ : ∃ g, f1 = g + 1 := ⟨f1 - 1, by omega⟩
    obtain ⟨g2, rfl⟩ : ∃ g, f2 = g + 1 := ⟨f2 - 1, by omega⟩
    rw [parseMailF, parseMailF]
    apply parseMailBody_congr
    intro a b ha hb
    have hsl : (listSlice raw a b).length ≤ b - a := by
      simp only [listSlice, List.length_take, List.length_drop]
      omega
    exact ih (listSlice raw a b) g1 g2 (by omega) (by omega) (by omega)

/-- `parse_mail` run with any sufficient fuel agrees with `parseMail`. -/
theorem parseMailF_eq_parseMail (rawData : List Nat) (f : Nat)
    (hf : rawData.length < f) : parseMailF f rawData = parseMail rawData :=
  parseMailF_mono rawData.length rawData f (rawData.length + 1)
    (Nat.le_refl _) hf (by omega)


/-- Variant of `getD_of_drop_cons` for a singleton-append suffix shape. -/
theorem getD_of_drop_append {l rest : List Nat} {n c : Nat}
    (h : l.drop n = [c] ++ rest) : l.getD n 0 = c :=
  getD_of_drop_cons (by rw [h]; rfl)

/-- Claim C5: a message whose first `Content-Type` header value is
`multipart/alternative; boundary=myboundary` and whose body region consists
of a preamble and two parts delimited by `--myboundary` lines and a closing
`--myboundary--` parses into exactly two subparts, in source order, each
being the result of `parse_mail` on its delimited span.  The hypotheses say
the delimiter does not occur (even overlapping its own first occurrence)
inside the preamble or either part. -/
theorem C5_two_subparts
    (raw pre p1 p2 : List Nat) (hs : List MailHeader) (ixb : Nat) (m1 m2 : ParsedMail)
    (hH : parseHeaders raw = .ret (.ok (hs, ixb)))
    (hCT : getFirstValue hs (str ("Content-Type")) =
      .ok (some (str ("multipart/alternative; boundary=myboundary"))))
    (hSplit : raw.drop ixb = pre ++ str ("--myboundary") ++ [10] ++ p1 ++
      str ("--myboundary") ++ [10] ++ p2 ++ str ("--myboundary") ++ [45, 45])
    (hPre : ¬ str ("--myboundary") <:+: (pre ++ str ("--myboundary")).dropLast)
    (hP1 : ¬ str ("--myboundary") <:+: (p1 ++ str ("--myboundary")).dropLast)
    (hP2 : ¬ str ("--myboundary") <:+: (p2 ++ str ("--myboundary")).dropLast)
    (hm1 : parseMail p1 = .ret (.ok m1))
    (hm2 : parseMail p2 = .ret (.ok m2)) :
    ∃ m, parseMail raw = .ret (.ok m) ∧ m.subparts = [m1, m2] := by
  have hBlen : (str ("--myboundary")).length = 12 := rfl
  have hSp : raw.drop ixb = pre ++ (str ("--myboundary") ++ ([10] ++ (p1 ++
      (str ("--myboundary") ++ ([10] ++ (p2 ++ (str ("--myboundary") ++ [45, 45]))))))) := by
    rw [hSplit]
    simp [List.append_assoc]
  have hdlen := congrArg List.length hSp
  simp only [List.length_drop, List.length_append, List.length_cons, List.length_nil,
    hBlen] at hdlen
  have hlen : raw.length = ixb + pre.length + p1.length + p2.length + 40 := by omega
  have hd0 : raw.drop (ixb + pre.length) = str ("--myboundary") ++ ([10] ++ (p1 ++
      (str ("--myboundary") ++ ([10] ++ (p2 ++ (str ("--myboundary") ++ [45, 45])))))) := by
    rw [← List.drop_drop, hSp]
    exact drop_at_append rfl rfl
  have hq0 : findFromU8 raw ixb (str ("--myboundary")) = .ret (some (ixb + pre.length)) := by
    apply findFromU8_some_intro (by decide) (by omega) (by omega) (by rw [hBlen]; omega)
    · rw [hd0]
      exact List.prefix_append _ _
    · intro j hj1 hj2
      exact not_prefix_drop_of_middle hSp hPre hj1 (by omega)
  have hd1 : raw.drop (ixb + pre.length + 12) = [10] ++ (p1 ++
      (str ("--myboundary") ++ ([10] ++ (p2 ++ (str ("--myboundary") ++ [45, 45]))))) := by
    rw [← List.drop_drop, hd0]
    exact drop_at_append rfl hBlen.symm
  have hnl1 : findFromU8 raw (ixb + pre.length + 12) [10] =
      .ret (some (ixb + pre.length + 12)) := by
    apply findFromU8_some_intro (by decide) (by omega) (by omega)
      (by simp only [List.length_cons, List.length_nil]; omega)
    · rw [hd1]
      exact List.prefix_append _ _
    · intro j hj1 hj2
      omega
  have hdS1 : raw.drop (ixb + pre.length + 12 + 1) = p1 ++
      (str ("--myboundary") ++ ([10] ++ (p2 ++ (str ("--myboundary") ++ [45, 45])))) := by
    rw [← List.drop_drop, hd1]
    exact drop_at_append rfl rfl
  have hdQ1 : raw.drop (ixb + pre.length + 12 + 1 + p1.length) =
      str ("--myboundary") ++ ([10] ++ (p2 ++ (str ("--myboundary") ++ [45, 45]))) := by
    rw [← List.drop_drop, hdS1]
    exact drop_at_append rfl rfl
  have hq1 : findFromU8 raw (ixb + pre.length + 12 + 1) (str ("--myboundary")) =
      .ret (some (ixb + pre.length + 12 + 1 + p1.length)) := by
    apply findFromU8_some_intro (by decide) (by omega) (by omega) (by rw [hBlen]; omega)
    · rw [hdQ1]
      exact List.prefix_append _ _
    · intro j hj1 hj2
      exact not_prefix_drop_of_middle hdS1 hP1 hj1 (by omega)
  have hslice1 : listSlice raw (ixb + pre.length + 12 + 1)
      (ixb + pre.length + 12 + 1 + p1.length) = p1 := by
    rw [listSlice, hdS1,
      show ixb + pre.length + 12 + 1 + p1.length - (ixb + pre.length + 12 + 1) = p1.length
        from by omega]
    exact take_at_append rfl rfl
  have hdBE2 : raw.drop (ixb + pre.length + 12 + 1 + p1.length + 12) = [10] ++
      (p2 ++ (str ("--myboundary") ++ [45, 45])) := by
    rw [← List.drop_drop, hdQ1]
    exact drop_at_append rfl hBlen.symm
  have hg10 : raw.getD (ixb + pre.length + 12 + 1 + p1.length + 12) 0 = 10 :=
    getD_of_drop_append hdBE2
  have hnl2 : findFromU8 raw (ixb + pre.length + 12 + 1 + p1.length + 12) [10] =
      .ret (some (ixb + pre.length + 12 + 1 + p1.length + 12)) := by
    apply findFromU8_some_intro (by decide) (by omega) (by omega)
      (by simp only [List.length_cons, List.length_nil]; omega)
    · rw [hdBE2]
      exact List.prefix_append _ _
    · intro j hj1 hj2
      omega
  have hdS2 : raw.drop (ixb + pre.length + 12 + 1 + p1.length + 12 + 1) = p2 ++
      (str ("--myboundary") ++ [45, 45]) := by
    rw [← List.drop_drop, hdBE2]
    exact drop_at_append rfl rfl
  have hdQ2 : raw.drop (ixb + pre.length + 12 + 1 + p1.length + 12 + 1 + p2.length) =
      str ("--myboundary") ++ [45, 45] := by
    rw [← List.drop_drop, hdS2]
    exact drop_at_append rfl rfl
  have hq2 : findFromU8 raw (ixb + pre.length + 12 + 1 + p1.length + 12 + 1)
      (str ("--myboundary")) =
      .ret (some (ixb + pre.length + 12 + 1 + p1.length + 12 + 1 + p2.length)) := by
    apply findFromU8_some_intro (by decide) (by omega) (by omega) (by rw [hBlen]; omega)
    · rw [hdQ2]
      exact List.prefix_append _ _
    · intro j hj1 hj2
      exact not_prefix_drop_of_middle hdS2 hP2 hj1 (by omega)
  have hslice2 : listSlice raw (ixb + pre.length + 12 + 1 + p1.length + 12 + 1)
      (ixb + pre.length + 12 + 1 + p1.length + 12 + 1 + p2.length) = p2 := by
    rw [listSlice, hdS2,
      show ixb + pre.length + 12 + 1 + p1.length + 12 + 1 + p2.length -
          (ixb + pre.length + 12 + 1 + p1.length + 12 + 1) = p2.length from by omega]
    exact take_at_append rfl rfl
  have hdBE3 : raw.drop (ixb + pre.length + 12 + 1 + p1.length + 12 + 1 + p2.length + 12) =
      [45, 45] := by
    rw [← List.drop_drop, hdQ2]
    exact drop_at_append rfl hBlen.symm
  have hg45a : raw.getD (ixb + pre.length + 12 + 1 + p1.length + 12 + 1 + p2.length + 12) 0 =
      45 := getD_of_drop_cons hdBE3
  have hdBE3b : raw.drop
      (ixb + pre.length + 12 + 1 + p1.length + 12 + 1 + p2.length + 12 + 1) = [45] := by
    rw [← List.drop_drop, hdBE3]
    rfl
  have hg45b : raw.getD
      (ixb + pre.length + 12 + 1 + p1.length + 12 + 1 + p2.length + 12 + 1) 0 = 45 :=
    getD_of_drop_cons hdBE3b
  have hm1f : parseMailF raw.length p1 = .ret (.ok m1) := by
    rw [parseMailF_eq_parseMail p1 raw.length (by omega)]
    exact hm1
  have hnc1 : ¬ (ixb + pre.length + 12 + 1 + p1.length + 12 + 2 ≤ raw.length ∧
      raw.getD (ixb + pre.length + 12 + 1 + p1.length + 12) 0 = 45 ∧
      raw.getD (ixb + pre.length + 12 + 1 + p1.length + 12 + 1) 0 = 45) := by
    intro hcc
    have hx := hcc.2.1
    rw [hg10] at hx
    exact absurd hx (by decide)
  have hloop2 : parseMailLoop (parseMailF raw.length) raw (str ("--myboundary")) raw.length
      (ixb + pre.length + 12 + 1 + p1.length + 12) [m1] = .ret (.ok [m1, m2]) := by
    have hm2f : parseMailF raw.length p2 = .ret (.ok m2) := by
      rw [parseMailF_eq_parseMail p2 raw.length (by omega)]
      exact hm2
    obtain ⟨g, hgr⟩ : ∃ g, raw.length = g + 1 := ⟨raw.length - 1, by omega⟩
    rw [hgr] at hm2f
    rw [hgr]
    simp only [parseMailLoop, hnl2, hq2, hslice2, hm2f, hBlen]
    rw [if_pos ⟨by omega, hg45a, hg45b⟩]
    rfl
  refine ⟨.mk hs ⟨str ("multipart/alternative"), str ("us-ascii"),
      some (str ("myboundary"))⟩ (listSlice raw ixb (ixb + pre.length)) [m1, m2],
    ?_, rfl⟩
  show parseMailBody (parseMailF raw.length) raw = _
  unfold parseMailBody
  simp only [hH, hCT]
  have hpct : parseContentType (str ("multipart/alternative; boundary=myboundary")) =
      .ret (.ok ⟨str ("multipart/alternative"), str ("us-ascii"),
        some (str ("myboundary"))⟩) := by rfl
  have hmp : ((str ("multipart/")).isPrefixOf (str ("multipart/alternative"))) = true := by
    rfl
  have hBnd : utf8Encode ([45, 45] ++ str ("myboundary")) = str ("--myboundary") := by rfl
  simp only [hpct, hmp, if_true, hBnd, hBlen, hq0]
  simp only [parseMailLoop, hnl1, hq1, hslice1, hm1f, hBlen, List.nil_append]
  rw [if_neg hnc1, hloop2]

theorem C5_two_subparts_witness :
    ∃ m, parseMail (str ("Content-Type: multipart/alternative; boundary=myboundary\n\n--myboundary\nA: B\n\n--myboundary\nC: D\n\n--myboundary--")) =
        .ret (.ok m) ∧
      m.subparts =
        [ParsedMail.mk [⟨str ("A"), str ("B")⟩]
          ⟨str ("text/plain"), str ("us-ascii"), none⟩ [] [],
         ParsedMail.mk [⟨str ("C"), str ("D")⟩]
          ⟨str ("text/plain"), str ("us-ascii"), none⟩ [] []] :=
  C5_two_subparts
    (str ("Content-Type: multipart/alternative; boundary=myboundary\n\n--myboundary\nA: B\n\n--myboundary\nC: D\n\n--myboundary--"))
    [] (str ("A: B\n\n")) (str ("C: D\n\n"))
    [⟨str ("Content-Type"), str ("multipart/alternative; boundary=myboundary")⟩] 58
    (ParsedMail.mk [⟨str ("A"), str ("B")⟩]
      ⟨str ("text/plain"), str ("us-ascii"), none⟩ [] [])
    (ParsedMail.mk [⟨str ("C"), str ("D")⟩]
      ⟨str ("text/plain"), str ("us-ascii"), none⟩ [] [])
    rfl rfl rfl (by decide) (by decide) (by decide) rfl rfl

theorem findFromU8_ret_lt {line key : List Nat} {s : Nat} {o : Option Nat}
    (h : findFromU8 line s key = .ret o) : s < line.length := by
  by_contra hc
  unfold findFromU8 at h
  by_cases hk : key.length = 0
  · rw [if_pos hk] at h
    exact Res.noConfusion h
  · rw [if_neg hk, if_pos hc] at h
    exact Res.noConfusion h

theorem TreeOk_leaf (raw : List Nat) (hs : List MailHeader) (ct : ParsedContentType)
    (n : Nat) (hH : parseHeaders raw = .ret (.ok (hs, n))) :
    TreeOk raw (ParsedMail.mk hs ct (raw.drop n) []) := by
  refine TreeOk.node _ _ ?_ SubsOk.nil
  intro hs2 n2 hH2
  rw [hH] at hH2
  injection hH2 with k1
  injection k1 with k2
  injection k2 with k3 k4
  subst k4
  constructor
  · intro hne
    exact absurd rfl hne
  · intro _
    exact ⟨rfl, rfl⟩

theorem SubsOk_snoc (sraw : List Nat) (s : ParsedMail)
    (hp : parseMail sraw = .ret (.ok s)) (ht : TreeOk sraw s) :
    ∀ acc, SubsOk acc → SubsOk (acc ++ [s]) := by
  intro acc
  induction acc with
  | nil =>
    intro _
    exact SubsOk.cons sraw s [] hp ht SubsOk.nil
  | cons x rest ih =>
    intro h
    cases h with
    | cons sraw0 s0 rest0 hp0 ht0 hr0 =>
      rw [List.cons_append]
      exact SubsOk.cons sraw0 x (rest ++ [s]) hp0 ht0 (ih hr0)

theorem parseMailLoop_subsOk
    (pr : List Nat → Res (Except MailParseError ParsedMail))
    (raw bndry : List Nat)
    (hpr : ∀ a b, 1 ≤ a → ∀ sub, pr (listSlice raw a b) = .ret (.ok sub) →
      parseMail (listSlice raw a b) = .ret (.ok sub) ∧ TreeOk (listSlice raw a b) sub) :
    ∀ fuel ixBE acc out, SubsOk acc →
      parseMailLoop pr raw bndry fuel ixBE acc = .ret (.ok out) → SubsOk out := by
  intro fuel
  induction fuel with
  | zero =>
    intro ixBE acc out _ hL
    exact Res.noConfusion hL
  | succ fuel ih =>
    intro ixBE acc out hacc hL
    rw [parseMailLoop] at hL
    cases h1 : findFromU8 raw ixBE [10] with
    | panics =>
      simp only [h1] at hL
      exact Res.noConfusion hL
    | fuelOut =>
      simp only [h1] at hL
      exact Res.noConfusion hL
    | ret o1 =>
      cases o1 with
      | none =>
        simp only [h1] at hL
        injection hL with e1
        injection e1 with e2
        subst e2
        exact hacc
      | some v =>
        simp only [h1] at hL
        cases h2 : findFromU8 raw (v + 1) bndry with
        | panics =>
          simp only [h2] at hL
          exact Res.noConfusion hL
        | fuelOut =>
          simp only [h2] at hL
          exact Res.noConfusion hL
        | ret o2 =>
          cases o2 with
          | none =>
            simp only [h2] at hL
            injection hL with e1
            exact Except.noConfusion e1
          | some pe =>
            simp only [h2] at hL
            cases h3 : pr (listSlice raw (v + 1) pe) with
            | panics =>
              simp only [h3] at hL
              exact Res.noConfusion hL
            | fuelOut =>
              simp only [h3] at hL
              exact Res.noConfusion hL
            | ret z =>
              cases z with
              | error e =>
                simp only [h3] at hL
                injection hL with e1
                exact Except.noConfusion e1
              | ok sub =>
                simp only [h3] at hL
                have hps := hpr (v + 1) pe (by omega) sub h3
                have hacc2 : SubsOk (acc ++ [sub]) :=
                  SubsOk_snoc _ _ hps.1 hps.2 acc hacc
                by_cases hcl : (pe + bndry.length + 2 ≤ raw.length ∧
                    raw.getD (pe + bndry.length) 0 = 45 ∧
                    raw.getD (pe + bndry.length + 1) 0 = 45)
                · rw [if_pos hcl] at hL
                  injection hL with e1
                  injection e1 with e2
                  subst e2
                  exact hacc2
                · rw [if_neg hcl] at hL
                  exact ih _ _ _ hacc2 hL

theorem parseMail_treeOk_aux :
    ∀ n raw m, raw.length < n → parseMail raw = .ret (.ok m) → TreeOk raw m := by
  intro n
  induction n with
  | zero =>
    intro raw m hlen
    exact absurd hlen (Nat.not_lt_zero _)
  | succ n ih =>
    intro raw m hlen hpm
    have hpm2 : parseMailBody (parseMailF raw.length) raw = .ret (.ok m) := hpm
    unfold parseMailBody at hpm2
    cases hH : parseHeaders raw with
    | panics =>
      simp only [hH] at hpm2
      exact Res.noConfusion hpm2
    | fuelOut =>
      simp only [hH] at hpm2
      exact Res.noConfusion hpm2
    | ret x =>
      cases x with
      | error e =>
        simp only [hH] at hpm2
        injection hpm2 with e1
        exact Except.noConfusion e1
      | ok p =>
        obtain ⟨hs, ixBody⟩ := p
        simp only [hH] at hpm2
        cases hG : getFirstValue hs (str ("Content-Type")) with
        | error e =>
          simp only [hG] at hpm2
          injection hpm2 with e1
          exact Except.noConfusion e1
        | ok octype =>
          cases octype with
          | none =>
            simp only [hG] at hpm2
            injection hpm2 with e1
            injection e1 with e2
            subst e2
            exact TreeOk_leaf raw hs _ ixBody hH
          | some sct =>
            simp only [hG] at hpm2
            cases hC : parseContentType sct with
            | panics =>
              simp only [hC] at hpm2
              exact Res.noConfusion hpm2
            | fuelOut =>
              simp only [hC] at hpm2
              exact Res.noConfusion hpm2
            | ret y =>
              cases y with
              | error e =>
                simp only [hC] at hpm2
                injection hpm2 with e1
                exact Except.noConfusion e1
              | ok ctype =>
                simp only [hC] at hpm2
                cases hB : ctype.boundary with
                | none =>
                  simp only [hB] at hpm2
                  injection hpm2 with e1
                  injection e1 with e2
                  subst e2
                  exact TreeOk_leaf raw hs _ ixBody hH
                | some b =>
                  simp only [hB] at hpm2
                  by_cases hMP : (str ("multipart/")).isPrefixOf ctype.mimetype = true
                  · rw [if_pos hMP] at hpm2
                    cases hF : findFromU8 raw ixBody (utf8Encode ([45, 45] ++ b)) with
                    | panics =>
                      simp only [hF] at hpm2
                      exact Res.noConfusion hpm2
                    | fuelOut =>
                      simp only [hF] at hpm2
                      exact Res.noConfusion hpm2
                    | ret o =>
                      cases o with
                      | none =>
                        simp only [hF] at hpm2
                        injection hpm2 with e1
                        injection e1 with e2
                        subst e2
                        exact TreeOk_leaf raw hs _ ixBody hH
                      | some q =>
                        simp only [hF] at hpm2
                        have hpos : ixBody < raw.length := findFromU8_ret_lt hF
                        have hpr : ∀ a c, 1 ≤ a → ∀ sub,
                            parseMailF raw.length (listSlice raw a c) = .ret (.ok sub) →
                            parseMail (listSlice raw a c) = .ret (.ok sub) ∧
                              TreeOk (listSlice raw a c) sub := by
                          intro a c ha sub hsub
                          have hsl : (listSlice raw a c).length < raw.length := by
                            simp only [listSlice, List.length_take, List.length_drop]
                            omega
                          rw [parseMailF_eq_parseMail _ _ hsl] at hsub
                          exact ⟨hsub, ih _ _ (by omega) hsub⟩
                        cases hL : parseMailLoop (parseMailF raw.length) raw
                            (utf8Encode ([45, 45] ++ b)) (raw.length + 1)
                            (q + (utf8Encode ([45, 45] ++ b)).length) [] with
                        | panics =>
                          simp only [hL] at hpm2
                          exact Res.noConfusion hpm2
                        | fuelOut =>
                          simp only [hL] at hpm2
                          exact Res.noConfusion hpm2
                        | ret z =>
                          cases z with
                          | error e =>
                            simp only [hL] at hpm2
                            injection hpm2 with e1
                            exact Except.noConfusion e1
                          | ok subs =>
                            simp only [hL] at hpm2
                            injection hpm2 with e1
                            injection e1 with e2
                            subst e2
                            refine TreeOk.node _ _ ?_ ?_
                            · intro hs2 n2 hH2
                              rw [hH] at hH2
                              injection hH2 with k1
                              injection k1 with k2
                              injection k2 with k3 k4
                              subst k4
                              constructor
                              · intro _
                                exact ⟨hMP, b, q, hB, hF⟩
                              · intro hnml
                                exact absurd ⟨hMP, b, q, hB, hF⟩ hnml
                            · exact parseMailLoop_subsOk (parseMailF raw.length) raw
                                (utf8Encode ([45, 45] ++ b)) hpr (raw.length + 1)
                                (q + (utf8Encode ([45, 45] ++ b)).length) [] subs
                                SubsOk.nil hL
                  · rw [if_neg hMP] at hpm2
                    injection hpm2 with e1
                    injection e1 with e2
                    subst e2
                    exact TreeOk_leaf raw hs _ ixBody hH

/-- Claim C6: on every buffer where `parse_mail` succeeds, the returned tree
satisfies at every node: subparts is non-empty only if the node's mimetype
starts with `multipart/`, a boundary parameter was declared, and its
`--`-prefixed delimiter was located in the body; whenever that condition
fails the node is a leaf whose body is everything after the header block to
the end of that node's buffer; and every subpart is itself the `parse_mail`
result of some sub-buffer, recursively satisfying the same invariant. -/
theorem C6_tree_invariant (raw : List Nat) (m : ParsedMail)
    (h : parseMail raw = .ret (.ok m)) : TreeOk raw m :=
  parseMail_treeOk_aux (raw.length + 1) raw m (Nat.lt_succ_self _) h

theorem C6_tree_invariant_witness :
    TreeOk (str ("A: B\n\nhello"))
      (ParsedMail.mk [⟨str ("A"), str ("B")⟩]
        ⟨str ("text/plain"), str ("us-ascii"), none⟩ (str ("hello")) []) :=
  C6_tree_invariant _ _ rfl
